import Mathlib

/-!
Verification of the execution-plan state machine of the Benjamin assistant.

The development shallowly embeds the control-flow core of the repository:

* `src/experts/gpt_orchestrator.py` — plan normalization (`_setdefaults`,
  `_validate_memory_obj`, `_clean_key`);
* `src/orchestrator/agent_loop.py` — the agent loop engine, the escalation
  gate, the bash allow-list and the planner's JSON handling;
* `src/orchestrator/benjamin_orchestrator.py` — `needs_approval`, `can_use`
  and the direct execution path `_execute_direct`;
* `src/handlers/message_handler.py` — the approval-reply handler
  `_handle_approval`.

External model calls (text generation, critique, wall-clock time, the
cooperative cancellation flag set by the kill switch) are modelled as
environment streams: each read the Python code performs consumes the next
entry of the corresponding stream.  Python dicts coming from decoded JSON
are modelled by the inductive `Json` type and association lists that keep
insertion order, mirroring `dict` semantics (JSON numbers are modelled as
integers).  Python exceptions are modelled with `Except`.
-/

/-! ## Python string primitives -/

/-- Whitespace characters recognised by Python's `str.strip()` and `\s`
(ASCII fragment: space, tab, newline, carriage return, vertical tab,
form feed). -/
def isPyWs (c : Char) : Bool :=
  c.toNat = 32 || c.toNat = 9 || c.toNat = 10 || c.toNat = 13 ||
  c.toNat = 11 || c.toNat = 12

/-- Model of Python `str.strip()` on a character list. -/
def pyStripList (l : List Char) : List Char :=
  ((l.dropWhile isPyWs).reverse.dropWhile isPyWs).reverse

/-- Model of Python `str.strip()`. -/
def pyStrip (s : String) : String :=
  String.mk (pyStripList s.data)

/-- Model of Python `str.rstrip()`. -/
def pyRStrip (s : String) : String :=
  String.mk ((s.data.reverse.dropWhile isPyWs).reverse)

/-- Model of Python `str.strip(chars)`: remove the characters of `cs` from
both ends. -/
def pyStripChars (cs : List Char) (l : List Char) : List Char :=
  ((l.dropWhile (cs.contains ·)).reverse.dropWhile (cs.contains ·)).reverse

/-- Model of Python slicing `s[:n]` on strings (by characters). -/
def pyTake (s : String) (n : Nat) : String := String.mk (s.data.take n)

/-- Auxiliary for whitespace collapsing: the Bool records whether the
previous character was whitespace (in which case further whitespace is
dropped instead of emitted). -/
def collapseWsAux : Bool → List Char → List Char
  | _, [] => []
  | prevWs, c :: rest =>
    if isPyWs c then
      if prevWs then collapseWsAux true rest
      else ' ' :: collapseWsAux true rest
    else c :: collapseWsAux false rest

/-- Model of Python `re.sub(r"\s+", " ", k)`: every maximal whitespace run
becomes a single space. -/
def collapseWs (l : List Char) : List Char :=
  collapseWsAux false l

/-- Model of Python `str.split(" ")` (split on every single space, keeping
empty pieces). -/
def splitSpace (l : List Char) : List (List Char) :=
  l.foldr
    (fun c acc =>
      match acc with
      | [] => if c = ' ' then [[], []] else [[c]]
      | w :: rest => if c = ' ' then [] :: (w :: rest) else (c :: w) :: rest)
    [[]]

/-- Model of Python `" ".join(words)`. -/
def joinSpace (ws : List (List Char)) : List Char :=
  (List.intercalate [' '] ws)

/-- ASCII lower-casing, modelling `str.lower()` on the characters the
handlers compare (Hebrew letters are unaffected by `lower()`). -/
def pyLower (s : String) : String :=
  String.mk (s.data.map Char.toLower)

/-- Model of Python `str.startswith(pre)`. -/
def pyStartsWith (s pre : String) : Bool := pre.data.isPrefixOf s.data

/-- Model of Python `str.isdigit()` for ASCII digits: non-empty and all
digits. -/
def pyIsDigit (s : String) : Bool :=
  !s.data.isEmpty && s.data.all Char.isDigit

/-! ## JSON values and Python dict operations -/

/-- JSON values as decoded by `json.loads` (numbers restricted to
integers). -/
inductive Json where
  | null : Json
  | bool : Bool → Json
  | num : Int → Json
  | str : String → Json
  | arr : List Json → Json
  | obj : List (String × Json) → Json

/-- A decoded JSON object: an insertion-ordered association list, as a
Python `dict`. -/
abbrev PyDict := List (String × Json)

/-- Model of `d.get(k)` (`none` when the key is absent): the value of the
first matching key. -/
def pyGet (d : PyDict) (k : String) : Option Json :=
  (d.find? (fun p => p.1 = k)).map (fun p => p.2)

/-- Model of `d.setdefault(k, v)`: keep the dict if the key is present,
otherwise append the binding. -/
def pySetdefault (d : PyDict) (k : String) (v : Json) : PyDict :=
  if (pyGet d k).isSome then d else d ++ [(k, v)]

/-- Model of `d[k] = v`: replace the value in place if present, otherwise
append. -/
def pySet (d : PyDict) (k : String) (v : Json) : PyDict :=
  if (pyGet d k).isSome then
    d.map (fun p => if p.1 = k then (p.1, v) else p)
  else d ++ [(k, v)]

/-- Python truthiness of a JSON value (`bool(x)`). -/
def truthy : Json → Bool
  | Json.null => false
  | Json.bool b => b
  | Json.num n => decide (n ≠ 0)
  | Json.str s => decide (s ≠ "")
  | Json.arr l => !l.isEmpty
  | Json.obj l => !l.isEmpty

mutual
/-- Model of Python `str(x)` for decoded JSON values.  Strings render as
their contents; containers render in Python `repr` style (the exact
rendering of containers is irrelevant to every claim, only that it is some
fixed string). -/
def pyStr : Json → String
  | Json.null => "None"
  | Json.bool b => if b then "True" else "False"
  | Json.num n => toString n
  | Json.str s => s
  | Json.arr l => "[" ++ pyStrList l ++ "]"
  | Json.obj l => "dict(" ++ pyStrObj l ++ ")"

def pyStrList : List Json → String
  | [] => ""
  | [x] => pyStr x
  | x :: rest => pyStr x ++ ", " ++ pyStrList rest

def pyStrObj : List (String × Json) → String
  | [] => ""
  | [(k, v)] => k ++ ": " ++ pyStr v
  | (k, v) :: rest => k ++ ": " ++ pyStr v ++ ", " ++ pyStrObj rest
end

/-- Parse an optional-sign ASCII digit string, model of `int(s)` for the
strings it accepts (underscore separators are not modelled). -/
def pyIntOfString (s : String) : Option Int :=
  let t := pyStripList s.data
  let (sign, digits) :=
    match t with
    | '-' :: rest => ((-1 : Int), rest)
    | '+' :: rest => ((1 : Int), rest)
    | l => ((1 : Int), l)
  if digits = [] then none
  else if digits.all Char.isDigit then
    let n : Nat := digits.foldl (fun acc c => acc * 10 + (c.toNat - 48)) 0
    some (sign * (n : Int))
  else none

/-- Model of Python `int(x)` on decoded JSON values, `none` when the
conversion raises. -/
def pyToInt : Json → Option Int
  | Json.num n => some n
  | Json.bool b => some (if b then 1 else 0)
  | Json.str s => pyIntOfString s
  | _ => none

/-! ## Plan normalizer (`src/experts/gpt_orchestrator.py`) -/

/-- The quote characters stripped by `k.strip('"\x27')` in `_clean_key`. -/
def quoteChars : List Char := ['"', Char.ofNat 39]

/-- The punctuation set of `k.strip(" .,:;!?-–—")` in `_clean_key`. -/
def punctChars : List Char := [' ', '.', ',', ':', ';', '!', '?', '-', '–', '—']

/-- The final cap of `_clean_key` and the hard cap of
`_validate_memory_obj`: `if len(k) > 40: k = k[:40].rstrip()`. -/
def capKey (key : String) : String :=
  if key.length > 40 then pyRStrip (pyTake key 40) else key

/-- The huge-value guard of `_validate_memory_obj`:
`if len(value) > 500: value = value[:500].rstrip() + "…"`. -/
def capValue (v : String) : String :=
  if v.length > 500 then pyRStrip (pyTake v 500) ++ "…" else v

/-- Model of `_clean_key` (gpt_orchestrator.py lines 25-49).  The argument
is the value of `mem.get("key") or ""`, so a falsy original arrives here as
the empty string. -/
def cleanKey (j : Json) : String :=
  if ¬ truthy j then ""
  else
    let k := pyStripList (pyStr j).data
    let k := collapseWs k
    let k := pyStripChars quoteChars k
    let ws := splitSpace k
    let k := if ws.length > 6 then joinSpace (ws.take 6) else k
    let k := pyStripChars punctChars k
    capKey (String.mk k)

/-- A fully populated memory suggestion `{type, key, value}`. -/
structure MemWrite where
  type : String
  key : String
  value : String
deriving DecidableEq

/-- Model of `mem.get(k) or ""`: the stored value when truthy, otherwise
the empty string. -/
def getOrEmpty (d : PyDict) (k : String) : Json :=
  let v := (pyGet d k).getD Json.null
  if truthy v then v else Json.str ""

/-- `str(mem.get("type") or "").strip() or "fact"`. -/
def vmType (d : PyDict) : String :=
  if pyStrip (pyStr (getOrEmpty d "type")) = "" then "fact"
  else pyStrip (pyStr (getOrEmpty d "type"))

/-- `_clean_key(mem.get("key") or "")`. -/
def vmKey (d : PyDict) : String := cleanKey (getOrEmpty d "key")

/-- `str(mem.get("value") or "").strip()`. -/
def vmValueRaw (d : PyDict) : String := pyStrip (pyStr (getOrEmpty d "value"))

/-- Model of `_validate_memory_obj` (gpt_orchestrator.py lines 52-70). -/
def validateMemoryObj : Json → Option MemWrite
  | Json.obj d =>
    if vmKey d = "" ∨ vmValueRaw d = "" then none
    else some ⟨vmType d, capKey (vmKey d), capValue (vmValueRaw d)⟩
  | _ => none

/-- The normalized execution plan produced by `_setdefaults`.  The Python
function returns the input dict with these fields populated and typed;
extra unknown keys are irrelevant to every downstream read and are not
retained here. -/
structure NormPlan where
  suggested_automation_level : Int
  execution_mode : String
  tools_required : List String
  use_web : Bool
  require_verification : Bool
  require_code_review : Bool
  require_task_decomposition : Bool
  governors : PyDict
  reason : String
  suggest_memory_write : Bool
  memory_to_write : Option MemWrite

/-- The normalized `suggested_automation_level`: `setdefault(0)`, the
guarded `int(...)` conversion (0 on failure), then the clamp
`max(0, min(5, _))`. -/
def normLevel (raw : PyDict) : Int :=
  let levelJ := (pyGet raw "suggested_automation_level").getD (Json.num 0)
  max 0 (min 5 ((pyToInt levelJ).getD 0))

/-- The normalized `execution_mode`: `setdefault("direct")`, replaced by
the level-derived mode only when the stored value is not one of the two
valid tokens. -/
def normMode (raw : PyDict) : String :=
  match (pyGet raw "execution_mode").getD (Json.str "direct") with
  | Json.str s =>
    if s = "direct" ∨ s = "agent_loop" then s
    else if normLevel raw ≥ 3 then "agent_loop" else "direct"
  | _ => if normLevel raw ≥ 3 then "agent_loop" else "direct"

/-- The normalized `tools_required`: coerced to `[]` unless a list, then
`[str(x) for x in tools if x]`. -/
def normTools (raw : PyDict) : List String :=
  match (pyGet raw "tools_required").getD (Json.arr []) with
  | Json.arr l => (l.filter truthy).map pyStr
  | _ => []

/-- `bool(plan.get(k))` after `setdefault(k, False)`. -/
def normBool (raw : PyDict) (k : String) : Bool :=
  truthy ((pyGet raw k).getD (Json.bool false))

/-- The governors dict before level-based defaults: coerced to `{}`
unless a dict. -/
def normGov0 (raw : PyDict) : PyDict :=
  match (pyGet raw "governors").getD (Json.obj []) with
  | Json.obj l => l
  | _ => []

/-- The normalized governors dict: level ≥ 4 fills
`max_execution_time_seconds = 60` and `max_turns = 8` when absent, level 3
fills `45` and `6`. -/
def normGovernors (raw : PyDict) : PyDict :=
  let level := normLevel raw
  if level ≥ 4 then
    pySetdefault (pySetdefault (normGov0 raw) "max_execution_time_seconds"
      (Json.num 60)) "max_turns" (Json.num 8)
  else if level = 3 then
    pySetdefault (pySetdefault (normGov0 raw) "max_execution_time_seconds"
      (Json.num 45)) "max_turns" (Json.num 6)
  else normGov0 raw

/-- The normalized `reason`: `str(...)` unless already a string. -/
def normReason (raw : PyDict) : String :=
  match (pyGet raw "reason").getD (Json.str "") with
  | Json.str s => s
  | j => pyStr j

/-- The normalized `memory_to_write`. -/
def normMemory (raw : PyDict) : Option MemWrite :=
  validateMemoryObj ((pyGet raw "memory_to_write").getD Json.null)

/-- Model of `_setdefaults` (gpt_orchestrator.py lines 92-142), the total
plan normalizer applied to every decoded plan object. -/
def setdefaults (raw : PyDict) : NormPlan :=
  let level := normLevel raw
  let mode := normMode raw
  let tools := normTools raw
  let gov := normGovernors raw
  let reason := normReason raw
  let mem := normMemory raw
  let suggest :=
    match mem with
    | none => false
    | some _ => normBool raw "suggest_memory_write"
  { suggested_automation_level := level
    execution_mode := mode
    tools_required := tools
    use_web := normBool raw "use_web"
    require_verification := normBool raw "require_verification"
    require_code_review := normBool raw "require_code_review"
    require_task_decomposition := normBool raw "require_task_decomposition"
    governors := gov
    reason := reason
    suggest_memory_write := suggest
    memory_to_write := mem }

/-! ## Bash allow-list (`src/orchestrator/agent_loop.py` lines 43-77) -/

/-- Model of Python `str.split()` with no arguments: split on whitespace
runs, discarding empty pieces.  The accumulator holds the current word
reversed. -/
def pySplitWsAux : List Char → List Char → List (List Char)
  | acc, [] => if acc.isEmpty then [] else [acc.reverse]
  | acc, c :: rest =>
    if isPyWs c then
      if acc.isEmpty then pySplitWsAux [] rest
      else acc.reverse :: pySplitWsAux [] rest
    else pySplitWsAux (c :: acc) rest

/-- Model of Python `s.split()`. -/
def pySplitWs (s : String) : List String :=
  (pySplitWsAux [] s.data).map String.mk

/-- Model of `_is_bash_allowed` (agent_loop.py lines 43-56). -/
def isBashAllowed (cmd : String) : Bool :=
  let parts := pySplitWs (pyStrip cmd)
  match parts with
  | [] => false
  | base :: rest =>
    if base = "ls" then true
    else if base = "cat" then true
    else if base = "git" then
      match rest with
      | sub :: _ => sub = "status" || sub = "diff" || sub = "log"
      | [] => false
    else if base = "python" then
      match rest with
      | a :: b :: _ => a = "-m" && b = "pytest"
      | _ => false
    else false

/-- The observable effect of `_run_safe_bash` (agent_loop.py lines 59-77):
either the rejection stand-in string is returned with no subprocess ever
created, or the stripped command is handed to the shell under the hard
wall-clock timeout passed to `asyncio.wait_for`. -/
inductive BashOutcome where
  | blocked (msg : String)
  | exec (cmd : String) (timeoutSeconds : Nat)
deriving DecidableEq

/-- The rejection stand-in string built by `_run_safe_bash`. -/
def blockedBashMsg (cmd : String) : String :=
  "[Blocked: \x27" ++ cmd ++ "\x27 not in allowlist]"

/-- Model of `_run_safe_bash` up to its only side-effecting decision:
which command (if any) reaches `create_subprocess_shell`, and with which
timeout. -/
def runSafeBash (cmd : String) : BashOutcome :=
  let c := pyStrip cmd
  if isBashAllowed c then .exec c 30
  else .blocked (blockedBashMsg c)

/-- What `_is_bash_allowed` actually reads of the whitespace-split
instruction: only the leading tokens (`parts[0]`, and for git/python the
one or two tokens after it).  Stated on a token list so that the theorem
can express that the decision depends on nothing beyond the first three
tokens — in particular not on shell separators or commands later in the
line. -/
def allowTokens : List String → Bool
  | [] => false
  | base :: rest =>
    if base = "ls" then true
    else if base = "cat" then true
    else if base = "git" then
      match rest with
      | sub :: _ => sub = "status" || sub = "diff" || sub = "log"
      | [] => false
    else if base = "python" then
      match rest with
      | a :: b :: _ => a = "-m" && b = "pytest"
      | _ => false
    else false

/-! ## `needs_approval` (`src/orchestrator/benjamin_orchestrator.py` 35-41) -/

/-- Model of `message.strip().lower().startswith(("תזכור", "remember"))`. -/
def isExplicitRemember (message : String) : Bool :=
  pyStartsWith (pyLower (pyStrip message)) "תזכור"
  || pyStartsWith (pyLower (pyStrip message)) "remember"

/-- Model of `BenjaminOrchestrator.needs_approval`.  The plan enters only
through its `suggested_automation_level` and `suggest_memory_write`
fields. -/
def needsApproval (level : Int) (suggestMem : Bool) (message : String) : Bool :=
  if suggestMem && !isExplicitRemember message then true
  else decide (level > 1)

/-! ## Approval-reply handler (`src/handlers/message_handler.py` 244-296) -/

def approvePhrases : List String := ["כן", "yes", "אשר"]
def rejectPhrases : List String := ["לא", "no", "בטל"]

/-- Try to match a literal at the head of the character list, returning
the remainder. -/
def matchLit (lit l : List Char) : Option (List Char) :=
  if lit.isPrefixOf l then some (l.drop lit.length) else none

def wsDrop (l : List Char) : List Char := l.dropWhile isPyWs

/-- The digit captured at the head of the list, if any (ASCII model of
regex `\d` and of `re.match` on a digit string). -/
def digitHead : List Char → Option Nat
  | c :: _ => if c.isDigit then some (c.toNat - 48) else none
  | [] => none

/-- One anchored attempt of the level-change regex
`(?:שנה\s*רמה|רמה)\s*(\d)` at a given position.  Since `רמה` and `שנה`
start with distinct letters and `\s*` followed by a non-whitespace literal
or by `\d` matches exactly by skipping the maximal whitespace run, the
backtracking regex is equivalent to this function. -/
def levelPatAt (l : List Char) : Option Nat :=
  match matchLit "שנה".data l with
  | some r =>
    match matchLit "רמה".data (wsDrop r) with
    | some r2 => digitHead (wsDrop r2)
    | none => none
  | none =>
    match matchLit "רמה".data l with
    | some r => digitHead (wsDrop r)
    | none => none

/-- Leftmost search of the level-change pattern, model of `re.search`. -/
def levelSearchAux : List Char → Option Nat
  | [] => none
  | c :: rest =>
    match levelPatAt (c :: rest) with
    | some d => some d
    | none => levelSearchAux rest

def levelSearch (s : String) : Option Nat := levelSearchAux s.data

/-- A pending approval record `{message, plan, resume_state?}` as stored
in `pending_plans`; the resume snapshot is carried opaquely. -/
structure PendingRec (ρ : Type) where
  message : String
  plan : PyDict
  resume : Option ρ

/-- The observable outcome of `_handle_approval`: either execution is
started with the given message/plan/resume snapshot, or a text reply is
returned; in both cases with the resulting pending-approval slot for the
user (`none` when the handler deleted it). -/
inductive ApprovalOut (ρ : Type) where
  | execute (message : String) (plan : PyDict) (resume : Option ρ)
      (pendingAfter : Option (PendingRec ρ))
  | reply (text : String) (pendingAfter : Option (PendingRec ρ))

/-- Model of `BenjaminMessageHandler._handle_approval` (message_handler.py
lines 244-296).  `fmt` stands for the collaborator
`orchestrator.format_approval_request`. -/
def handleApproval {ρ : Type} (fmt : PyDict → String) (normalized : String)
    (p : PendingRec ρ) : ApprovalOut ρ :=
  if approvePhrases.contains normalized then
    .execute p.message p.plan p.resume none
  else if rejectPhrases.contains normalized then
    .reply "בוטל." none
  else
    let lm :=
      match levelSearch normalized with
      | some d => some d
      | none => if pyIsDigit normalized then digitHead normalized.data else none
    match lm with
    | some d =>
      if d ≤ 5 then
        let plan' := pySet (pySet p.plan "suggested_automation_level" (Json.num d))
          "execution_mode" (Json.str (if d ≥ 3 then "agent_loop" else "direct"))
        if d ≤ 1 then .execute p.message plan' none none
        else .reply (fmt plan') (some ⟨p.message, plan', none⟩)
      else .reply "רמה לא תקינה (0-5)." (some p)
    | none => .reply "בוטל. שלח את הבקשה מחדש." none

/-! ## Agent loop engine (`src/orchestrator/agent_loop.py` lines 213-409)

External effects are modelled as streams consumed in program order: one
entry of `cancelled` per `context.get("cancelled")` poll, one entry of
`elapsed` per `total_elapsed()` read that feeds control flow or the resume
snapshot (reads used only for `print` are omitted), one `planner` entry
per `_plan_next_steps` call (the planner output is an arbitrary step
batch, as the external model may return any JSON), and one `execStep`
entry per `_execute_step` call (`Except.error` models a raised
exception). -/

/-- One planned step dict, with the fields the loop reads. -/
structure LStep where
  step_id : Int
  intent : String
  instruction : String
  tools : List String
  status : String
  result_summary : String
deriving DecidableEq

/-- An `EscalationRecord` `{current_level, requested_level, reason}`. -/
structure EscRec where
  current_level : Int
  requested_level : Int
  reason : String
deriving DecidableEq

/-- `INTENT_MIN_LEVEL.get(intent, 0)` (agent_loop.py lines 22-32). -/
def intentMinLevel (intent : String) : Int :=
  if intent = "research" then 0
  else if intent = "summarize" then 0
  else if intent = "finalize" then 0
  else if intent = "write" then 2
  else if intent = "edit" then 2
  else if intent = "todo" then 2
  else if intent = "verify" then 2
  else if intent = "code_review" then 2
  else if intent = "bash" then 3
  else 0

/-- The reason text of a mid-loop auto-approved escalation. -/
def escReason (stepId : Int) (intent : String) (required : Int) : String :=
  "Step #" ++ toString stepId ++ " (" ++ intent ++ ") requires level "
    ++ toString required

/-- Outcome of the escalation gate for one step. -/
inductive GateOutcome where
  | allow
  | auto (esc : EscRec)
  | block
deriving DecidableEq

/-- The escalation gate of the agent loop (agent_loop.py lines 309-356):
allow silently when the required level is already reachable, auto-approve
(recording an `EscalationRecord`) when it is at most one above the
originally approved level, block otherwise. -/
def escalationGate (required current approved : Int) (stepId : Int)
    (intent : String) : GateOutcome :=
  if required ≤ current then .allow
  else if required ≤ approved + 1 then
    .auto ⟨current, required, escReason stepId intent required⟩
  else .block

/-- The reason text recorded by the direct path's `can_use`. -/
def canUseReason (required : Int) : String :=
  "Capability requires level " ++ toString required

/-- Result of the direct path's `can_use`: the boolean answer plus the
updated `current_level` and escalation list. -/
structure CanUseResult where
  allowed : Bool
  level : Int
  escs : List EscRec
deriving DecidableEq

/-- Model of `can_use` in `_execute_direct`
(benjamin_orchestrator.py lines 165-184). -/
def canUse (required current approved : Int) (escs : List EscRec) :
    CanUseResult :=
  if required ≤ current then ⟨true, current, escs⟩
  else if required ≤ approved + 1 then
    ⟨true, required, escs ++ [⟨current, required, canUseReason required⟩]⟩
  else ⟨false, current, escs⟩

/-- The governors mapping as read by the loop (`gov.get("max_turns", 5)`,
`gov.get("max_execution_time_seconds", 120)`); a missing entry is
`none`. -/
structure LoopGovernors where
  maxTurns : Option Int
  maxTime : Option Int
deriving DecidableEq

structure LoopPlan where
  suggested_automation_level : Int
  use_web : Bool
  governors : LoopGovernors
deriving DecidableEq

/-- `gov.get("max_turns", DEFAULT_MAX_TURNS)` with
`DEFAULT_MAX_TURNS = 5`. -/
def loopMaxTurns (p : LoopPlan) : Int := p.governors.maxTurns.getD 5

/-- `gov.get("max_execution_time_seconds", DEFAULT_MAX_TIME)` with
`DEFAULT_MAX_TIME = 120`. -/
def loopMaxTime (p : LoopPlan) : Int := p.governors.maxTime.getD 120

/-- The resumable `RunState` snapshot (agent_loop.py lines 347-355). -/
structure LoopResumeState where
  completed_steps : List LStep
  results : List String
  tools_used : List String
  escalations : List EscRec
  iteration : Int
  next_step_id : Int
  elapsed_seconds : Int
deriving DecidableEq

/-- Environment streams for one `run_agent_loop` call. -/
structure LoopEnv where
  cancelled : Nat → Bool
  elapsed : Nat → Int
  planner : Nat → Int → List LStep
  execStep : Nat → Except String String
  compile : List String → String

/-- The loop's mutable state plus the stream cursors. -/
structure LoopSt where
  completed : List LStep
  results : List String
  tools : List String
  escs : List EscRec
  nextId : Int
  currentLevel : Int
  cIdx : Nat
  tIdx : Nat
  pIdx : Nat
  eIdx : Nat

/-- The extra payload returned when a blocked escalation suspends the
loop (`needs_approval=True`). -/
structure LoopSuspend where
  approval_request_text : String
  proposed_level : Int
  resume_state : LoopResumeState
deriving DecidableEq

/-- The structured result dict of `run_agent_loop`. -/
structure LoopResult where
  final_answer : String
  steps : List LStep
  tools_used : List String
  escalations : List EscRec
  stopped : Bool
  suspend : Option LoopSuspend
deriving DecidableEq

def mkLoopResult (final : String) (st : LoopSt) (stopped : Bool)
    (susp : Option LoopSuspend) : LoopResult :=
  ⟨final, st.completed, st.tools, st.escs, stopped, susp⟩

/-- Merge a step's tool names into the run-wide list, keeping first
occurrences (agent_loop.py lines 374-376). -/
def mergeTools (stepTools : List String) (used : List String) : List String :=
  stepTools.foldl (fun acc t => if acc.contains t then acc else acc ++ [t]) used

/-- The cancellation notice returned when no result exists. -/
def cancelNotice : String := "נעצר."

/-- The fixed message returned when governors stop a run that collected
nothing (agent_loop.py lines 403-406). -/
def limitMsg : String :=
  "הגעתי למגבלת הביצוע ולא הספקתי לאסוף מידע. נסה שוב עם governors גדולים יותר."

/-- The mid-loop approval request text (agent_loop.py lines 338-345). -/
def suspendText (stepId : Int) (intent : String) (required current : Int) :
    String :=
  "בזמן הביצוע נדרשת הרשאה גבוהה יותר.\n" ++
  "שלב #" ++ toString stepId ++ " (" ++ intent ++ ") דורש Level "
    ++ toString required ++ ".\n" ++
  "רמה נוכחית: " ++ toString current ++ ".\n" ++
  "לאשר העלאה ל-Level " ++ toString required ++ "? (כן / לא)"

/-- The governor-limit tail of the loop (agent_loop.py lines 392-409):
compile the collected results, or return the fixed limit message when
nothing was collected; both with `stopped=true`. -/
def governorFinish (env : LoopEnv) (st : LoopSt) : LoopResult :=
  match st.results with
  | [] => mkLoopResult limitMsg st true none
  | _ => mkLoopResult (env.compile st.results) st true none

/-- Outcome of the inner `for step in planned_steps` loop: either the
batch finished (or broke on cancellation/time) and the outer loop
continues, or the function returned. -/
inductive BatchOut where
  | cont (st : LoopSt)
  | ret (res : LoopResult)

/-- Record the outcome of the escalation gate in the loop state:
an auto-approved escalation raises `current_level` and appends the
record; allow leaves the state unchanged. -/
def gateApply : GateOutcome → Int → LoopSt → LoopSt
  | .auto e, required, st =>
    {st with currentLevel := required, escs := st.escs ++ [e]}
  | _, _, st => st

/-- Bookkeeping after a successful `_execute_step` call (agent_loop.py
lines 359-383): mark done, truncate the summary to 200 characters, append
a non-empty result, append to the completed log, merge tools, advance
`next_step_id`. -/
def runStepOk (step : LStep) (txt : String) (st : LoopSt) : LoopSt :=
  { st with
    eIdx := st.eIdx + 1
    results := if txt = "" then st.results else st.results ++ [txt]
    completed := st.completed ++
      [{step with status := "done", result_summary := pyTake txt 200}]
    tools := mergeTools step.tools st.tools
    nextId := step.step_id + 1 }

/-- Bookkeeping after a step whose execution raised (agent_loop.py lines
367-383): mark failed with the truncated error text and continue. -/
def runStepErr (step : LStep) (msg : String) (st : LoopSt) : LoopSt :=
  { st with
    eIdx := st.eIdx + 1
    completed := st.completed ++
      [{step with status := "failed", result_summary := pyTake msg 200}]
    tools := mergeTools step.tools st.tools
    nextId := step.step_id + 1 }

/-- The suspension result returned on a blocked escalation (agent_loop.py
lines 325-356), with `el` the `total_elapsed()` reading stored in the
snapshot. -/
def suspendResult (iteration : Int) (step : LStep) (required el : Int)
    (st : LoopSt) : LoopResult :=
  { final_answer := ""
    steps := st.completed
    tools_used := st.tools
    escalations := st.escs
    stopped := false
    suspend := some
      { approval_request_text :=
          suspendText step.step_id step.intent required st.currentLevel
        proposed_level := required
        resume_state :=
          ⟨st.completed, st.results, st.tools, st.escs, iteration,
            step.step_id, el⟩ } }

/-- The EXECUTE phase (agent_loop.py lines 302-387): per planned step,
poll cancellation and the time budget, evaluate the escalation gate
(suspending on block), execute the step, append it to the completed log,
merge tools, advance `next_step_id`, and short-circuit on a `finalize`
step that produced non-empty text. -/
def execBatch (env : LoopEnv) (approved maxTime : Int) (iteration : Int) :
    List LStep → LoopSt → BatchOut
  | [], st => .cont st
  | step :: rest, st =>
    if env.cancelled st.cIdx then .cont {st with cIdx := st.cIdx + 1}
    else
      let st1 := {st with cIdx := st.cIdx + 1}
      if env.elapsed st1.tIdx > maxTime then .cont {st1 with tIdx := st1.tIdx + 1}
      else
        let st2 := {st1 with tIdx := st1.tIdx + 1}
        let required := intentMinLevel step.intent
        match escalationGate required st2.currentLevel approved step.step_id
            step.intent with
        | .block =>
          .ret (suspendResult iteration step required (env.elapsed st2.tIdx) st2)
        | g =>
          let st3 := gateApply g required st2
          match env.execStep st3.eIdx with
          | .ok txt =>
            let st4 := runStepOk step txt st3
            if step.intent = "finalize" then
              if txt = "" then execBatch env approved maxTime iteration rest st4
              else .ret (mkLoopResult txt st4 false none)
            else execBatch env approved maxTime iteration rest st4
          | .error msg =>
            execBatch env approved maxTime iteration rest (runStepErr step msg st3)

/-- The outer `while iteration < max_turns` loop (agent_loop.py lines
279-390), with `fuel` the number of remaining permitted iterations. -/
def loopIter (env : LoopEnv) (approved maxTime : Int) :
    Nat → Int → LoopSt → LoopResult
  | 0, _, st => governorFinish env st
  | fuel + 1, iteration, st =>
    if env.cancelled st.cIdx then
      mkLoopResult ((st.results.getLast?).getD cancelNotice)
        {st with cIdx := st.cIdx + 1} true none
    else
      let st1 := {st with cIdx := st.cIdx + 1}
      if env.elapsed st1.tIdx > maxTime then
        governorFinish env {st1 with tIdx := st1.tIdx + 1}
      else
        let st2 := {st1 with tIdx := st1.tIdx + 1}
        let batch := env.planner st2.pIdx st2.nextId
        let st3 := {st2 with pIdx := st2.pIdx + 1}
        match batch with
        | [] => governorFinish env st3
        | _ =>
          match execBatch env approved maxTime iteration batch st3 with
          | .ret r => r
          | .cont st4 => loopIter env approved maxTime fuel (iteration + 1) st4

/-- Model of `run_agent_loop` (agent_loop.py lines 213-409).  On resume
the run state is restored from the snapshot and `current_level` restarts
at the (possibly raised) plan level; a fresh run starts with step id 1.
The snapshot's `elapsed_seconds` enters only through the `elapsed` stream,
which models `total_elapsed()` (prior elapsed time included). -/
def runAgentLoop (env : LoopEnv) (plan : LoopPlan)
    (resume : Option LoopResumeState) : LoopResult :=
  let approved := plan.suggested_automation_level
  let maxTurns := loopMaxTurns plan
  let maxTime := loopMaxTime plan
  match resume with
  | some r =>
    loopIter env approved maxTime (maxTurns - r.iteration).toNat r.iteration
      ⟨r.completed_steps, r.results, r.tools_used, r.escalations,
        r.next_step_id, approved, 0, 0, 0, 0⟩
  | none =>
    loopIter env approved maxTime maxTurns.toNat 0
      ⟨[], [], [], [], 1, approved, 0, 0, 0, 0⟩

/-! ## Planner JSON handling (`_plan_next_steps`, agent_loop.py 120-145)

`_plan_next_steps` strips code fences from the model response and decodes
it with `json.loads`; the embedding starts from the decoded value (`none`
for a `json.JSONDecodeError`).  The function's `except` clause catches
only `JSONDecodeError`, `KeyError` and `IndexError`; the `AttributeError`
raised by `.get`/`.setdefault` on a non-dict and the `TypeError` raised by
iterating or slicing a non-sequence propagate to the caller, which the
`Except.error` results model. -/

/-- Uncaught Python exceptions of `_plan_next_steps`. -/
inductive PyExc where
  | attributeError
  | typeError
deriving DecidableEq

/-- The synthetic finalize step returned on a JSON decode failure
(agent_loop.py lines 136-145). -/
def fallbackStep (nextStepId : Int) : Json :=
  Json.obj
    [("step_id", Json.num nextStepId),
     ("intent", Json.str "finalize"),
     ("instruction", Json.str "Compile final answer from gathered information"),
     ("tools", Json.arr [Json.str "generate_fast"]),
     ("status", Json.str "pending"),
     ("result_summary", Json.str "")]

/-- One pass of the `s.setdefault(...)` calls on a planned step; a
non-dict element has no `setdefault`, raising `AttributeError`. -/
def stepSetdefaults : Json → Except PyExc Json
  | Json.obj d =>
    .ok (Json.obj (pySetdefault (pySetdefault (pySetdefault d "status"
      (Json.str "pending")) "result_summary" (Json.str "")) "tools"
      (Json.arr [])))
  | _ => .error .attributeError

/-- The `for s in steps` loop over the decoded `steps` value.  Iterating
a string yields its characters (strings without `setdefault`), iterating a
dict yields its keys, and iterating anything else raises `TypeError`. -/
def iterStepsSetdefaults : Json → Except PyExc Json
  | Json.arr l => do
      let l' ← l.mapM stepSetdefaults
      pure (Json.arr l')
  | Json.str s => if s = "" then .ok (Json.str s) else .error .attributeError
  | Json.obj d => if d.isEmpty then .ok (Json.obj d) else .error .attributeError
  | _ => .error .typeError

/-- `steps[:3]`: slicing is defined for lists and strings only. -/
def pySlice3 : Json → Except PyExc Json
  | Json.arr l => .ok (Json.arr (l.take 3))
  | Json.str s => .ok (Json.str (pyTake s 3))
  | _ => .error .typeError

/-- Model of the parsing tail of `_plan_next_steps` (agent_loop.py lines
122-145), from the decoded model response (`none` = `JSONDecodeError`):
read `data.get("steps", [])` (raising `AttributeError` when the decoded
value is not a dict), run the `setdefault` loop, and return the first
three steps; a decode failure returns the single synthetic finalize
step. -/
def planFromDecoded (decoded : Option Json) (nextStepId : Int) :
    Except PyExc Json :=
  match decoded with
  | none => .ok (Json.arr [fallbackStep nextStepId])
  | some (Json.obj d) => do
      let steps ← iterStepsSetdefaults ((pyGet d "steps").getD (Json.arr []))
      pySlice3 steps
  | some _ => .error .attributeError

/-! ## Direct path (`_execute_direct`, benjamin_orchestrator.py 141-310)

The two critique blocks (verification, lines 220-257, and code review,
lines 268-301) are textually the template `critiqueStage` below, the
verification block instantiated with `sanity_check_answer` and a
web-or-fast refinement backend, the code-review block with
`review_and_improve_code` and the fast backend.  `now` models successive
`time.time() - start_time` readings; one entry is consumed per
`check_governors()` call. -/

structure DirectEnv where
  genFast : String → String
  genWeb : String → String
  sanity : String → String
  review : String → String
  now : Nat → Int
  cancelled : Nat → Bool

/-- The plan fields `_execute_direct` reads. -/
structure DirectPlan where
  suggested_automation_level : Int
  use_web : Bool
  require_verification : Bool
  require_code_review : Bool
  maxTime : Option Int
  maxTurns : Option Int
deriving DecidableEq

/-- Python truthiness of `gov.get(...)`: absent or zero is falsy. -/
def truthyOptInt : Option Int → Bool
  | none => false
  | some n => decide (n ≠ 0)

/-- Model of the closure `check_governors` (benjamin_orchestrator.py
lines 186-191). -/
def checkGovernors (maxTime maxTurns : Option Int) (elapsedRead : Int)
    (turns : Nat) : Bool :=
  if truthyOptInt maxTime && decide (elapsedRead > maxTime.getD 0) then false
  else if truthyOptInt maxTurns && decide ((turns : Int) ≥ maxTurns.getD 0) then
    false
  else true

/-- Running state of one `_execute_direct` call, including the count of
generation calls (`generate_fast`/`generate_web`) made so far. -/
structure DirectSt where
  result : String
  currentLevel : Int
  escs : List EscRec
  refinementCount : Nat
  turns : Nat
  genCalls : Nat
  tIdx : Nat
deriving DecidableEq

/-- Observable record of one critique sub-step: the critique output, the
draft it was compared against, whether it differed materially
(`checked and checked.strip() != result.strip()`), whether a refinement
generation call was triggered, and the draft after the sub-step. -/
structure CritEvent where
  critOut : String
  draftBefore : String
  differs : Bool
  refined : Bool
  resultAfter : String
deriving DecidableEq

/-- The shared critique-and-maybe-refine template of the verification and
code-review sub-steps (benjamin_orchestrator.py lines 220-257 and
268-301): call the critique; when its output differs materially, either
run one refinement generation pass (only when level 3 is reachable, the
refinement budget `MAX_REFINEMENT_PASSES = 1` is not spent, and governors
allow) or apply the critique output verbatim. -/
def critiqueStage (approved : Int) (maxTime maxTurns : Option Int)
    (workerPrompt : String) (critique refineGen : String → String)
    (now : Nat → Int) (st : DirectSt) : DirectSt × CritEvent :=
  let draft := st.result
  let checked := critique draft
  let st1 := {st with turns := st.turns + 1}
  let differs := decide (checked ≠ "") && decide (pyStrip checked ≠ pyStrip draft)
  if differs then
    let cu := canUse 3 st1.currentLevel approved st1.escs
    let st2 := {st1 with currentLevel := cu.level, escs := cu.escs}
    if cu.allowed && decide (st2.refinementCount < 1) then
      let gv := checkGovernors maxTime maxTurns (now st2.tIdx) st2.turns
      let st3 := {st2 with tIdx := st2.tIdx + 1}
      if gv then
        let res := refineGen (workerPrompt ++ "\n\nClaude feedback:\n" ++ checked)
        let st4 : DirectSt :=
          { st3 with
            result := res
            turns := st3.turns + 1
            refinementCount := st3.refinementCount + 1
            genCalls := st3.genCalls + 1 }
        (st4, ⟨checked, draft, true, true, res⟩)
      else ({st3 with result := checked}, ⟨checked, draft, true, false, checked⟩)
    else ({st2 with result := checked}, ⟨checked, draft, true, false, checked⟩)
  else (st1, ⟨checked, draft, false, false, draft⟩)

/-- The observable outcome of `_execute_direct`. -/
structure DirectOut where
  result : String
  refinementCount : Nat
  genCalls : Nat
  verifyEv : Option CritEvent
  reviewEv : Option CritEvent
  escalations : List EscRec
  cancelledEarly : Bool
  governorReturn : Bool
deriving DecidableEq

/-- The state after the `can_use(2)` gate of a critique sub-step updated
`current_level` and the escalation list. -/
def gatedSt (approved : Int) (st : DirectSt) : DirectSt :=
  {st with currentLevel := (canUse 2 st.currentLevel approved st.escs).level
           escs := (canUse 2 st.currentLevel approved st.escs).escs}

/-- The enable-and-gate wrapper shared verbatim by the verification and
code-review sub-steps (benjamin_orchestrator.py lines 220-224 and
268-271): when the plan requests the sub-step, `can_use(2)` gates it
(updating the level and escalation list even on denial), and only an
allowed gate runs the critique template. -/
def critGate (approved : Int) (mt mn : Option Int) (wp : String)
    (enabled : Bool) (critique refineGen : String → String)
    (now : Nat → Int) (st : DirectSt) : DirectSt × Option CritEvent :=
  if enabled then
    if (canUse 2 st.currentLevel approved st.escs).allowed then
      let r := critiqueStage approved mt mn wp critique refineGen now
        (gatedSt approved st)
      (r.1, some r.2)
    else (gatedSt approved st, none)
  else (st, none)

/-- The part of `_execute_direct` after the first cancellation poll and
governor check: the optional verification sub-step, a second cancellation
poll and governor check, and the optional code-review sub-step. -/
def directTail (env : DirectEnv) (plan : DirectPlan) (approved : Int)
    (workerPrompt : String) (useWeb : Bool) (st2 : DirectSt) : DirectOut :=
  let stage2 := critGate approved plan.maxTime plan.maxTurns workerPrompt
    plan.require_verification env.sanity
    (if useWeb then env.genWeb else env.genFast) env.now st2
  let st3 := stage2.1
  let verifyEv := stage2.2
  if env.cancelled 1 then
    ⟨cancelNotice, st3.refinementCount, st3.genCalls, verifyEv, none,
      st3.escs, true, false⟩
  else
    let gv2 := checkGovernors plan.maxTime plan.maxTurns (env.now st3.tIdx)
      st3.turns
    let st4 := {st3 with tIdx := st3.tIdx + 1}
    if !gv2 then
      ⟨st4.result, st4.refinementCount, st4.genCalls, verifyEv, none,
        st4.escs, false, true⟩
    else
      let stage3 := critGate approved plan.maxTime plan.maxTurns workerPrompt
        plan.require_code_review env.review env.genFast env.now st4
      let st5 := stage3.1
      ⟨st5.result, st5.refinementCount, st5.genCalls, verifyEv, stage3.2,
        st5.escs, false, false⟩

/-- Model of `BenjaminOrchestrator._execute_direct` (benjamin_orchestrator
lines 141-310): one generation pass, a cancellation poll, a governor
check, and the `directTail` above. -/
def directExec (env : DirectEnv) (plan : DirectPlan)
    (message memPrefix : String) : DirectOut :=
  let workerPrompt := memPrefix ++ message
  let approved := plan.suggested_automation_level
  let cu1 :=
    if plan.use_web then canUse 1 approved approved []
    else ⟨false, approved, []⟩
  let useWeb := plan.use_web && cu1.allowed
  let result1 :=
    if useWeb then env.genWeb workerPrompt else env.genFast workerPrompt
  let st1 : DirectSt := ⟨result1, cu1.level, cu1.escs, 0, 1, 1, 0⟩
  if env.cancelled 0 then
    ⟨cancelNotice, st1.refinementCount, st1.genCalls, none, none, st1.escs,
      true, false⟩
  else
    let gv1 := checkGovernors plan.maxTime plan.maxTurns (env.now st1.tIdx)
      st1.turns
    let st2 := {st1 with tIdx := st1.tIdx + 1}
    if !gv1 then
      ⟨st2.result, st2.refinementCount, st2.genCalls, none, none, st2.escs,
        false, true⟩
    else directTail env plan approved workerPrompt useWeb st2

/-! ## Helper lemmas -/

theorem pyTake_length_le (s : String) (n : Nat) : (pyTake s n).length ≤ n := by
  show (s.data.take n).length ≤ n
  simp

theorem pyRStrip_length_le (s : String) : (pyRStrip s).length ≤ s.length := by
  show ((s.data.reverse.dropWhile isPyWs).reverse).length ≤ s.data.length
  have h1 : (s.data.reverse.dropWhile isPyWs).length ≤ s.data.reverse.length :=
    (List.dropWhile_sublist _).length_le
  simpa using h1

theorem capKey_length (s : String) : (capKey s).length ≤ 40 := by
  unfold capKey
  split
  · exact le_trans (pyRStrip_length_le _) (pyTake_length_le _ _)
  · omega

theorem capKey_of_le {s : String} (h : s.length ≤ 40) : capKey s = s := by
  unfold capKey
  split
  · omega
  · rfl

theorem capValue_length (s : String) : (capValue s).length ≤ 501 := by
  unfold capValue
  split
  · rw [String.length_append]
    have h1 : (pyRStrip (pyTake s 500)).length ≤ 500 :=
      le_trans (pyRStrip_length_le _) (pyTake_length_le _ _)
    have h2 : ("…" : String).length = 1 := rfl
    omega
  · omega

theorem capValue_ne {s : String} (h : s ≠ "") : capValue s ≠ "" := by
  unfold capValue
  split
  · intro he
    have h1 : (pyRStrip (pyTake s 500) ++ "…").length =
        (pyRStrip (pyTake s 500)).length + 1 := by
      rw [String.length_append]; rfl
    rw [he] at h1
    have h2 : ("" : String).length = 0 := rfl
    omega
  · exact h

theorem cleanKey_length_le (j : Json) : (cleanKey j).length ≤ 40 := by
  unfold cleanKey
  split
  · decide
  · exact capKey_length _

theorem vmType_ne (d : PyDict) : vmType d ≠ "" := by
  unfold vmType
  split
  · decide
  · assumption

theorem vmKey_length_le (d : PyDict) : (vmKey d).length ≤ 40 :=
  cleanKey_length_le _

theorem validateMemoryObj_some {j : Json} {m : MemWrite}
    (h : validateMemoryObj j = some m) :
    m.type ≠ "" ∧ m.key ≠ "" ∧ m.key.length ≤ 40 ∧
    m.value ≠ "" ∧ m.value.length ≤ 501 := by
  cases j with
  | obj d =>
    replace h : (if vmKey d = "" ∨ vmValueRaw d = "" then (none : Option MemWrite)
        else some ⟨vmType d, capKey (vmKey d), capValue (vmValueRaw d)⟩) =
        some m := h
    by_cases hg : vmKey d = "" ∨ vmValueRaw d = ""
    · rw [if_pos hg] at h
      exact absurd h (by simp)
    · rw [if_neg hg] at h
      push_neg at hg
      obtain ⟨hk, hv⟩ := hg
      injection h with h
      subst h
      refine ⟨vmType_ne d, ?_, capKey_length _, capValue_ne hv, capValue_length _⟩
      show capKey (vmKey d) ≠ ""
      rw [capKey_of_le (vmKey_length_le d)]
      exact hk
  | null => simp [validateMemoryObj] at h
  | bool b => simp [validateMemoryObj] at h
  | num n => simp [validateMemoryObj] at h
  | str s => simp [validateMemoryObj] at h
  | arr l => simp [validateMemoryObj] at h

theorem pyGet_nil (k : String) : pyGet [] k = none := rfl

theorem pyGet_cons (p : String × Json) (d : PyDict) (k : String) :
    pyGet (p :: d) k = if p.1 = k then some p.2 else pyGet d k := by
  unfold pyGet
  by_cases hp : p.1 = k
  · simp [List.find?_cons, hp]
  · simp [List.find?_cons, hp]

theorem pyGet_append_of_none {d : PyDict} {k : String}
    (h : pyGet d k = none) (l2 : PyDict) : pyGet (d ++ l2) k = pyGet l2 k := by
  induction d with
  | nil => rfl
  | cons p rest ih =>
    rw [pyGet_cons] at h
    by_cases hp : p.1 = k
    · rw [if_pos hp] at h; exact absurd h (by simp)
    · rw [if_neg hp] at h
      show pyGet (p :: (rest ++ l2)) k = pyGet l2 k
      rw [pyGet_cons, if_neg hp]
      exact ih h

theorem pyGet_append_of_some {d : PyDict} {k : String} {v : Json}
    (h : pyGet d k = some v) (l2 : PyDict) : pyGet (d ++ l2) k = some v := by
  induction d with
  | nil => simp [pyGet_nil] at h
  | cons p rest ih =>
    rw [pyGet_cons] at h
    show pyGet (p :: (rest ++ l2)) k = some v
    rw [pyGet_cons]
    by_cases hp : p.1 = k
    · rw [if_pos hp] at h ⊢; exact h
    · rw [if_neg hp] at h ⊢; exact ih h

theorem pySetdefault_get_self {d : PyDict} {k : String} {v : Json}
    (h : pyGet d k = none) : pyGet (pySetdefault d k v) k = some v := by
  unfold pySetdefault
  rw [h]
  simp only [Option.isSome_none, Bool.false_eq_true, if_false]
  rw [pyGet_append_of_none h, pyGet_cons]
  simp

theorem pySetdefault_get_other {d : PyDict} {k k' : String} {v : Json}
    (h : k' ≠ k) : pyGet (pySetdefault d k' v) k = pyGet d k := by
  unfold pySetdefault
  split
  · rfl
  · cases hd : pyGet d k with
    | none =>
      rw [pyGet_append_of_none hd, pyGet_cons, if_neg h, pyGet_nil]
    | some w =>
      rw [pyGet_append_of_some hd]

theorem setdefaults_level (raw : PyDict) :
    (setdefaults raw).suggested_automation_level = normLevel raw := rfl

theorem setdefaults_mode (raw : PyDict) :
    (setdefaults raw).execution_mode = normMode raw := rfl

theorem setdefaults_governors (raw : PyDict) :
    (setdefaults raw).governors = normGovernors raw := rfl

theorem setdefaults_memory (raw : PyDict) :
    (setdefaults raw).memory_to_write = normMemory raw := rfl

theorem setdefaults_suggest (raw : PyDict) :
    (setdefaults raw).suggest_memory_write =
      match normMemory raw with
      | none => false
      | some _ => normBool raw "suggest_memory_write" := rfl

theorem normLevel_bounds (raw : PyDict) :
    0 ≤ normLevel raw ∧ normLevel raw ≤ 5 := by
  refine ⟨le_max_left 0 _, max_le (by norm_num) (min_le_left 5 _)⟩

/-- The supplied `execution_mode` (after `setdefault("direct")`) is not
one of the two valid tokens, which is the only case in which
`_setdefaults` derives the mode from the level. -/
def modeSuppliedInvalid (raw : PyDict) : Prop :=
  match (pyGet raw "execution_mode").getD (Json.str "direct") with
  | Json.str s => ¬(s = "direct" ∨ s = "agent_loop")
  | _ => True

/-! ## C2 — normalizer totality -/


theorem modeDefault_or (raw : PyDict) :
    (if normLevel raw ≥ 3 then "agent_loop" else "direct") = "direct" ∨
    (if normLevel raw ≥ 3 then "agent_loop" else "direct") = "agent_loop" := by
  split
  · exact Or.inr rfl
  · exact Or.inl rfl

/-- C2 (amended): plan normalization is a total function of the decoded
plan object (every partial Python operation it performs is guarded); the
normalized autonomy level is an integer in [0,5]; the execution mode is
always one of direct/agent_loop and is derived from the level whenever
the supplied value is not one of those two tokens — but a missing
execution_mode defaults to "direct" regardless of level, so the mode is
not always consistent with the level; the memory suggestion is either
null or fully populated, with non-empty type, non-empty key of at most 40
characters and non-empty value of at most 501 characters (500 kept
characters plus an appended ellipsis); a null memory suggestion forces
`suggest_memory_write = false`. -/
theorem normalize_total_spec (raw : PyDict) :
    (0 ≤ (setdefaults raw).suggested_automation_level ∧
      (setdefaults raw).suggested_automation_level ≤ 5) ∧
    ((setdefaults raw).execution_mode = "direct" ∨
      (setdefaults raw).execution_mode = "agent_loop") ∧
    (modeSuppliedInvalid raw →
      (setdefaults raw).execution_mode =
        if (setdefaults raw).suggested_automation_level ≥ 3 then "agent_loop"
        else "direct") ∧
    (∀ m, (setdefaults raw).memory_to_write = some m →
      m.type ≠ "" ∧ m.key ≠ "" ∧ m.key.length ≤ 40 ∧
      m.value ≠ "" ∧ m.value.length ≤ 501) ∧
    ((setdefaults raw).memory_to_write = none →
      (setdefaults raw).suggest_memory_write = false) := by
  refine ⟨?_, ?_, ?_, ?_, ?_⟩
  · rw [setdefaults_level]; exact normLevel_bounds raw
  · rw [setdefaults_mode]
    unfold normMode
    generalize (pyGet raw "execution_mode").getD (Json.str "direct") = j
    cases j with
    | str s =>
      dsimp only
      by_cases hs : s = "direct" ∨ s = "agent_loop"
      · rw [if_pos hs]; exact hs
      · rw [if_neg hs]; exact modeDefault_or raw
    | null => exact modeDefault_or raw
    | bool b => exact modeDefault_or raw
    | num n => exact modeDefault_or raw
    | arr l => exact modeDefault_or raw
    | obj o => exact modeDefault_or raw
  · rw [setdefaults_mode, setdefaults_level]
    unfold normMode modeSuppliedInvalid
    generalize (pyGet raw "execution_mode").getD (Json.str "direct") = j
    intro hmv
    cases j with
    | str s =>
      dsimp only at hmv ⊢
      rw [if_neg hmv]
    | null => rfl
    | bool b => rfl
    | num n => rfl
    | arr l => rfl
    | obj o => rfl
  · intro m hm
    rw [setdefaults_memory] at hm
    unfold normMemory at hm
    exact validateMemoryObj_some hm
  · intro hm
    rw [setdefaults_memory] at hm
    rw [setdefaults_suggest, hm]

/-- A 501-character value, one character over the documented 500 cap. -/
def longValue : String := String.mk (List.replicate 501 'a')

/-- The raw plan of the C2 counterexample: level 5 with no supplied
`execution_mode`, and a suggested memory write whose value has 501
characters. -/
def c2raw : PyDict :=
  [("suggested_automation_level", Json.num 5),
   ("suggest_memory_write", Json.bool true),
   ("memory_to_write", Json.obj
     [("type", Json.str "fact"), ("key", Json.str "city"),
      ("value", Json.str longValue)])]

set_option maxRecDepth 8000 in
/-- C2 counterexample: normalizing a level-5 plan without an explicit
`execution_mode` keeps the defaulted mode "direct" (not consistent with
the level, which demands agent_loop), and a 501-character memory value is
kept at 501 characters — over the claimed 500-character bound (the code
truncates to 500 characters only for longer values, and then appends an
ellipsis, reaching 501). -/
theorem normalize_mode_memory_counterexample :
    (setdefaults c2raw).suggested_automation_level = 5 ∧
    (setdefaults c2raw).execution_mode = "direct" ∧
    (setdefaults c2raw).suggest_memory_write = true ∧
    ((setdefaults c2raw).memory_to_write.map (fun m => m.value.length)) =
      some 501 := by
  refine ⟨rfl, rfl, rfl, ?_⟩
  decide

/-- C2 witness: the amended theorem applied at a plan whose supplied
execution_mode is the invalid token `7` and whose level is 4, and at the
empty plan object. -/
theorem normalize_total_spec_witness :
    (setdefaults [("execution_mode", Json.num 7),
      ("suggested_automation_level", Json.num 4)]).execution_mode =
      "agent_loop" ∧
    (setdefaults ([] : PyDict)).suggest_memory_write = false := by
  constructor
  · have h := (normalize_total_spec [("execution_mode", Json.num 7),
      ("suggested_automation_level", Json.num 4)]).2.2.1 trivial
    rw [h]
    rfl
  · exact (normalize_total_spec []).2.2.2.2 rfl

/-! ## C7 — governor defaults -/

/-- No governor entries were supplied in the raw plan: the `governors`
key is absent, is not a dict (coerced to `{}`), or is a dict without
`max_turns` and `max_execution_time_seconds`. -/
def govEntriesAbsent (raw : PyDict) : Prop :=
  match pyGet raw "governors" with
  | some (Json.obj l) =>
    pyGet l "max_turns" = none ∧ pyGet l "max_execution_time_seconds" = none
  | some _ => True
  | none => True

theorem normGov0_absent {raw : PyDict} (h : govEntriesAbsent raw) :
    pyGet (normGov0 raw) "max_turns" = none ∧
    pyGet (normGov0 raw) "max_execution_time_seconds" = none := by
  unfold normGov0
  unfold govEntriesAbsent at h
  revert h
  cases hg : pyGet raw "governors" with
  | none => intro h; exact ⟨rfl, rfl⟩
  | some j =>
    intro h
    cases j with
    | obj l => exact h
    | null => exact ⟨rfl, rfl⟩
    | bool b => exact ⟨rfl, rfl⟩
    | num n => exact ⟨rfl, rfl⟩
    | str s => exact ⟨rfl, rfl⟩
    | arr a => exact ⟨rfl, rfl⟩

/-- C7 (amended): when governor entries are absent, the agent loop
defaults `max_turns` to 5 and `max_execution_time_seconds` to 120; the
plan normalizer, however, fills the governors mapping of a level ≥ 4 plan
with `max_turns = 8` and `max_execution_time_seconds = 60` when those
entries are absent (not with the loop defaults 5 and 120; level-3 plans
are filled with 6 and 45). -/
theorem governor_defaults_spec :
    (∀ p : LoopPlan, p.governors.maxTurns = none → loopMaxTurns p = 5) ∧
    (∀ p : LoopPlan, p.governors.maxTime = none → loopMaxTime p = 120) ∧
    (∀ raw : PyDict, govEntriesAbsent raw →
      4 ≤ (setdefaults raw).suggested_automation_level →
      pyGet (setdefaults raw).governors "max_turns" = some (Json.num 8) ∧
      pyGet (setdefaults raw).governors "max_execution_time_seconds" =
        some (Json.num 60)) := by
  refine ⟨?_, ?_, ?_⟩
  · intro p h; unfold loopMaxTurns; rw [h]; rfl
  · intro p h; unfold loopMaxTime; rw [h]; rfl
  · intro raw habs hlvl
    rw [setdefaults_level] at hlvl
    rw [setdefaults_governors]
    unfold normGovernors
    rw [if_pos (show normLevel raw ≥ 4 from hlvl)]
    obtain ⟨ht, hm⟩ := normGov0_absent habs
    constructor
    · exact pySetdefault_get_self
        (by rw [pySetdefault_get_other (by decide)]; exact ht)
    · rw [pySetdefault_get_other (by decide)]
      exact pySetdefault_get_self hm

/-- The raw plan of the C7 counterexample: a level-4 plan without
governors. -/
def c7raw : PyDict := [("suggested_automation_level", Json.num 4)]

/-- C7 counterexample: the normalizer fills the governors of a level-4
plan with `max_turns = 8` and `max_execution_time_seconds = 60`, not with
the defaults 5 and 120 named by the claim. -/
theorem governor_defaults_counterexample :
    pyGet (setdefaults c7raw).governors "max_turns" = some (Json.num 8) ∧
    pyGet (setdefaults c7raw).governors "max_execution_time_seconds" =
      some (Json.num 60) ∧
    (8 : Int) ≠ 5 ∧ (60 : Int) ≠ 120 :=
  ⟨rfl, rfl, by decide, by decide⟩

/-- C7 witness: the amended theorem applied at a governor-less loop plan
and at the concrete level-4 raw plan. -/
theorem governor_defaults_spec_witness :
    loopMaxTurns ⟨3, false, ⟨none, none⟩⟩ = 5 ∧
    loopMaxTime ⟨3, false, ⟨none, none⟩⟩ = 120 ∧
    pyGet (setdefaults c7raw).governors "max_turns" = some (Json.num 8) :=
  ⟨governor_defaults_spec.1 ⟨3, false, ⟨none, none⟩⟩ rfl,
   governor_defaults_spec.2.1 ⟨3, false, ⟨none, none⟩⟩ rfl,
   (governor_defaults_spec.2.2 c7raw trivial (by decide)).1⟩

/-! ## C4 — bash allow-list -/

/-- C4 (amended): a command whose stripped text fails the allow-list is
answered with the explanatory rejection stand-in and no command ever
reaches the shell; an allow-listed command is executed with the
30-second hard timeout; `"rm -rf /"` is rejected while `"git status"`
executes.  But the allow-list does not confine execution to read-only
commands: the filter reads only the leading tokens of the
whitespace-split line (first token ls/cat, git plus status/diff/log,
python -m pytest — nothing beyond the first three tokens is inspected),
and the entire original line is then handed to
`create_subprocess_shell`, so a compound line whose first token is
allow-listed executes in full whatever follows the shell separator. -/
theorem bash_allowlist_spec :
    (∀ cmd, isBashAllowed (pyStrip cmd) = false →
      runSafeBash cmd = .blocked (blockedBashMsg (pyStrip cmd))) ∧
    (∀ cmd, isBashAllowed (pyStrip cmd) = true →
      runSafeBash cmd = .exec (pyStrip cmd) 30) ∧
    runSafeBash "rm -rf /" = .blocked (blockedBashMsg "rm -rf /") ∧
    runSafeBash "git status" = .exec "git status" 30 ∧
    (∀ cmd, isBashAllowed cmd
      = allowTokens ((pySplitWs (pyStrip cmd)).take 3)) := by
  refine ⟨?_, ?_, rfl, rfl, ?_⟩
  · intro cmd h
    unfold runSafeBash
    simp [h]
  · intro cmd h
    unfold runSafeBash
    simp [h]
  · intro cmd
    simp only [isBashAllowed]
    generalize pySplitWs (pyStrip cmd) = parts
    rcases parts with _ | ⟨b, _ | ⟨s, _ | ⟨t, rest⟩⟩⟩ <;> rfl

/-- C4 counterexample: the compound shell line `"ls ; rm -rf /"` passes
the allow-list on its first token alone, and the full line — including
the embedded `rm -rf /`, which on its own is blocked — is handed to the
shell.  So the allow-list admits lines that execute non-read-only
commands. -/
theorem bash_allowlist_counterexample :
    isBashAllowed "ls ; rm -rf /" = true ∧
    runSafeBash "ls ; rm -rf /" = .exec "ls ; rm -rf /" 30 ∧
    isBashAllowed "rm -rf /" = false :=
  ⟨rfl, rfl, rfl⟩

/-- C4 witness: the two universally quantified parts applied at the
concrete commands of the spec's test. -/
theorem bash_allowlist_spec_witness :
    runSafeBash "rm -rf /" = .blocked (blockedBashMsg "rm -rf /") ∧
    runSafeBash "git status" = .exec "git status" 30 :=
  ⟨bash_allowlist_spec.1 "rm -rf /" (by decide),
   bash_allowlist_spec.2.1 "git status" (by decide)⟩

/-! ## C5 — memory-write approval gating -/

/-- C5 counterexample: a plan with `suggest_memory_write = true` and
autonomy level 2 still requires approval even when the message is an
explicit remember command, because `needs_approval` falls through to the
`level > 1` test; the claim's "the same plan with an explicit-remember
message does not" fails for every plan above level 1. -/
theorem needs_approval_explicit_remember_counterexample :
    isExplicitRemember "remember my city" = true ∧
    needsApproval 2 true "remember my city" = true := by
  constructor
  · decide
  · decide

/-- C5 (amended): `needs_approval` is exactly "a memory write is
suggested and the message is not an explicit remember command, OR the
autonomy level exceeds 1"; with a suggested memory write, a non-explicit
message always requires approval, and an explicit-remember message avoids
approval only when the plan's level is at most 1. -/
theorem needs_approval_spec :
    (∀ (level : Int) (suggest : Bool) (msg : String),
      needsApproval level suggest msg =
        ((suggest && !isExplicitRemember msg) || decide (level > 1))) ∧
    (∀ (level : Int) (msg : String), isExplicitRemember msg = false →
      needsApproval level true msg = true) ∧
    (∀ (level : Int) (msg : String), isExplicitRemember msg = true →
      level ≤ 1 → needsApproval level true msg = false) := by
  refine ⟨?_, ?_, ?_⟩
  · intro level suggest msg
    unfold needsApproval
    cases suggest with
    | false => simp
    | true =>
      cases h : isExplicitRemember msg with
      | false => simp [h]
      | true => simp [h]
  · intro level msg h
    unfold needsApproval
    rw [h]
    rfl
  · intro level msg h hl
    unfold needsApproval
    rw [h]
    simp only [Bool.not_true, Bool.and_false, Bool.false_eq_true, if_false,
      decide_eq_false_iff_not]
    omega
  
/-- C5 witness: the amended theorem applied at concrete plans and
messages. -/
theorem needs_approval_spec_witness :
    needsApproval 0 true "hello" = true ∧
    needsApproval 1 true "remember x" = false :=
  ⟨needs_approval_spec.2.1 0 "hello" (by decide),
   needs_approval_spec.2.2 1 "remember x" (by decide) (by decide)⟩

/-! ## C10 — approval fallthrough deletes the pending plan -/

/-- C10: while an approval is pending, a reply that is none of the
approve phrases, none of the reject phrases, no match of the level-change
pattern and not a bare digit string makes `_handle_approval` delete the
pending record — original message, plan and resume snapshot included,
with nothing executed — and reply with the fixed cancellation message
asking to resend the request. -/
theorem approval_fallthrough_spec :
    ∀ (ρ : Type) (fmt : PyDict → String) (normalized : String)
      (p : PendingRec ρ),
      approvePhrases.contains normalized = false →
      rejectPhrases.contains normalized = false →
      levelSearch normalized = none →
      pyIsDigit normalized = false →
      handleApproval fmt normalized p =
        .reply "בוטל. שלח את הבקשה מחדש." none := by
  intro ρ fmt normalized p h1 h2 h3 h4
  unfold handleApproval
  rw [h1, h2]
  simp only [Bool.false_eq_true, if_false]
  rw [h3, h4]
  simp

/-- C10 witness: the theorem applied at a concrete non-matching reply. -/
theorem approval_fallthrough_spec_witness :
    handleApproval (fun _ => "") "תודה" (⟨"m", [], none⟩ : PendingRec Unit) =
      .reply "בוטל. שלח את הבקשה מחדש." none :=
  approval_fallthrough_spec Unit (fun _ => "") "תודה" ⟨"m", [], none⟩
    (by decide) (by decide) (by decide) (by decide)

/-! ## C9 — planner parse failure handling -/

/-- A well-formed planned step dict as the external model would return
it, before the `setdefault` pass. -/
def c9step (i : Int) (ins : String) : Json :=
  Json.obj [("step_id", Json.num i), ("intent", Json.str "research"),
    ("instruction", Json.str ins)]

/-- The same step after the `setdefault` pass. -/
def c9stepFilled (i : Int) (ins : String) : Json :=
  Json.obj [("step_id", Json.num i), ("intent", Json.str "research"),
    ("instruction", Json.str ins), ("status", Json.str "pending"),
    ("result_summary", Json.str ""), ("tools", Json.arr [])]

/-- A decoded response with four well-formed steps. -/
def c9fourSteps : Json :=
  Json.obj [("steps",
    Json.arr [c9step 1 "a", c9step 2 "b", c9step 3 "c", c9step 4 "d"])]

/-- C9 (code bug): the planner's `except` clause catches only
`JSONDecodeError`, `KeyError` and `IndexError`.  A model response that is
valid JSON but not an object — `"[]"` decodes to an empty list — raises
`AttributeError` from `data.get("steps", [])`, which propagates out of
`_plan_next_steps` instead of producing the synthetic finalize step, so
the loop does not always make forward progress.  A response whose
`"steps"` entries are not objects likewise raises `AttributeError` from
`s.setdefault(...)`.  A true decode failure does return the single
synthetic finalize step, and a well-formed steps list is cut to at most 3
entries. -/
theorem planner_nondict_raises :
    planFromDecoded (some (Json.arr [])) 1 = .error .attributeError ∧
    planFromDecoded (some (Json.obj [("steps", Json.arr [Json.num 1])])) 1 =
      .error .attributeError ∧
    planFromDecoded none 1 = .ok (Json.arr [fallbackStep 1]) ∧
    planFromDecoded (some c9fourSteps) 1 =
      .ok (Json.arr
        [c9stepFilled 1 "a", c9stepFilled 2 "b", c9stepFilled 3 "c"]) :=
  ⟨rfl, rfl, rfl, rfl⟩

/-! ## C1 — escalation gate machinery -/

theorem escalationGate_auto_elim {required current approved stepId : Int}
    {intent : String} {e : EscRec}
    (h : escalationGate required current approved stepId intent = .auto e) :
    current < required ∧ required ≤ approved + 1 ∧
    e = ⟨current, required, escReason stepId intent required⟩ := by
  unfold escalationGate at h
  split at h
  · exact absurd h (by simp)
  · split at h
    · injection h with h
      refine ⟨by omega, by assumption, h.symm⟩
    · exact absurd h (by simp)

theorem escalationGate_block_elim {required current approved stepId : Int}
    {intent : String}
    (h : escalationGate required current approved stepId intent = .block) :
    current < required ∧ approved + 1 < required := by
  unfold escalationGate at h
  split at h
  · exact absurd h (by simp)
  · split at h
    · exact absurd h (by simp)
    · constructor <;> omega

theorem escalationGate_allow_elim {required current approved stepId : Int}
    {intent : String}
    (h : escalationGate required current approved stepId intent = .allow) :
    required ≤ current := by
  unfold escalationGate at h
  split at h
  · assumption
  · split at h <;> exact absurd h (by simp)

/-- All escalation records of a list were auto-approved inside the
single-level grace band over the originally approved level. -/
def EscsOk (approved : Int) (es : List EscRec) : Prop :=
  ∀ e ∈ es, e.current_level < e.requested_level ∧
    e.requested_level ≤ approved + 1

/-- Every step of the list was actually executed (marked done or
failed). -/
def StepsDone (ss : List LStep) : Prop :=
  ∀ s ∈ ss, s.status = "done" ∨ s.status = "failed"

/-- The escalation list and completed-steps log grew only by records in
the grace band and by executed steps. -/
def GrowsOk (approved : Int) (escs0 : List EscRec) (steps0 : List LStep)
    (escs1 : List EscRec) (steps1 : List LStep) : Prop :=
  ∃ es ss, escs1 = escs0 ++ es ∧ EscsOk approved es ∧
    steps1 = steps0 ++ ss ∧ StepsDone ss

theorem GrowsOk.refl (approved : Int) (escs : List EscRec)
    (steps : List LStep) : GrowsOk approved escs steps escs steps := by
  refine ⟨[], [], by simp, ?_, by simp, ?_⟩
  · intro e he; cases he
  · intro s hs; cases hs

theorem GrowsOk.trans {approved : Int} {e0 s0 e1 s1 e2 s2}
    (h1 : GrowsOk approved e0 s0 e1 s1) (h2 : GrowsOk approved e1 s1 e2 s2) :
    GrowsOk approved e0 s0 e2 s2 := by
  obtain ⟨es1, ss1, he1, hq1, hs1, hd1⟩ := h1
  obtain ⟨es2, ss2, he2, hq2, hs2, hd2⟩ := h2
  refine ⟨es1 ++ es2, ss1 ++ ss2, ?_, ?_, ?_, ?_⟩
  · rw [he2, he1, List.append_assoc]
  · intro e he
    rcases List.mem_append.mp he with h | h
    · exact hq1 e h
    · exact hq2 e h
  · rw [hs2, hs1, List.append_assoc]
  · intro s hs
    rcases List.mem_append.mp hs with h | h
    · exact hd1 s h
    · exact hd2 s h

theorem GrowsOk.addEsc {approved : Int} {escs steps} {e : EscRec}
    (h1 : e.current_level < e.requested_level)
    (h2 : e.requested_level ≤ approved + 1) :
    GrowsOk approved escs steps (escs ++ [e]) steps := by
  refine ⟨[e], [], rfl, ?_, by simp, ?_⟩
  · intro x hx
    rw [List.mem_singleton] at hx
    subst hx
    exact ⟨h1, h2⟩
  · intro s hs; cases hs

theorem GrowsOk.addStepG {approved : Int} {escs steps} {s : LStep}
    (h : s.status = "done" ∨ s.status = "failed") :
    GrowsOk approved escs steps escs (steps ++ [s]) := by
  refine ⟨[], [s], by simp, ?_, rfl, ?_⟩
  · intro e he; cases he
  · intro x hx
    rw [List.mem_singleton] at hx
    subst hx
    exact h

/-- Invariant of the EXECUTE phase relative to a starting state: the
escalation list and completed log only grow legally, and any suspension
proposes a level beyond the grace band. -/
def BatchInv (approved : Int) (st : LoopSt) : BatchOut → Prop
  | .cont out => GrowsOk approved st.escs st.completed out.escs out.completed
  | .ret r => GrowsOk approved st.escs st.completed r.escalations r.steps ∧
      ∀ sp, r.suspend = some sp → approved + 1 < sp.proposed_level

theorem BatchInv.preB {approved : Int} {st st' : LoopSt} {o : BatchOut}
    (h : BatchInv approved st' o)
    (hg : GrowsOk approved st.escs st.completed st'.escs st'.completed) :
    BatchInv approved st o := by
  cases o with
  | cont out => exact hg.trans h
  | ret r => exact ⟨hg.trans h.1, h.2⟩

theorem execBatch_inv (env : LoopEnv) (approved maxTime iteration : Int) :
    ∀ (batch : List LStep) (st : LoopSt),
      BatchInv approved st (execBatch env approved maxTime iteration batch st) := by
  intro batch
  induction batch with
  | nil =>
    intro st
    exact GrowsOk.refl approved st.escs st.completed
  | cons step rest ih =>
    intro st
    simp only [execBatch]
    split
    · exact GrowsOk.refl approved st.escs st.completed
    · split
      · exact GrowsOk.refl approved st.escs st.completed
      · generalize hgate : escalationGate (intentMinLevel step.intent)
            st.currentLevel approved step.step_id step.intent = g
        cases g with
        | block =>
          refine ⟨GrowsOk.refl approved st.escs st.completed, ?_⟩
          intro sp hsp
          simp only [suspendResult] at hsp
          injection hsp with hsp
          subst hsp
          exact (escalationGate_block_elim hgate).2
        | allow =>
          dsimp only [gateApply]
          cases hexec : env.execStep st.eIdx with
          | ok txt =>
            dsimp only
            by_cases hfin : step.intent = "finalize"
            · by_cases htxt : txt = ""
              · rw [if_pos hfin, if_pos htxt]
                exact BatchInv.preB (ih _) (GrowsOk.addStepG (Or.inl rfl))
              · rw [if_pos hfin, if_neg htxt]
                refine ⟨GrowsOk.addStepG (Or.inl rfl), ?_⟩
                intro sp hsp
                exact absurd hsp (by simp [mkLoopResult])
            · rw [if_neg hfin]
              exact BatchInv.preB (ih _) (GrowsOk.addStepG (Or.inl rfl))
          | error msg =>
            exact BatchInv.preB (ih _) (GrowsOk.addStepG (Or.inr rfl))
        | auto e =>
          obtain ⟨hcr, hra, he⟩ := escalationGate_auto_elim hgate
          subst he
          have hesc : GrowsOk approved st.escs st.completed
              (st.escs ++ [(⟨st.currentLevel, intentMinLevel step.intent,
                escReason step.step_id step.intent (intentMinLevel step.intent)⟩ :
                EscRec)]) st.completed :=
            GrowsOk.addEsc hcr hra
          dsimp only [gateApply]
          cases hexec : env.execStep st.eIdx with
          | ok txt =>
            dsimp only
            by_cases hfin : step.intent = "finalize"
            · by_cases htxt : txt = ""
              · rw [if_pos hfin, if_pos htxt]
                exact BatchInv.preB (ih _)
                  (hesc.trans (GrowsOk.addStepG (Or.inl rfl)))
              · rw [if_pos hfin, if_neg htxt]
                refine ⟨hesc.trans (GrowsOk.addStepG (Or.inl rfl)), ?_⟩
                intro sp hsp
                exact absurd hsp (by simp [mkLoopResult])
            · rw [if_neg hfin]
              exact BatchInv.preB (ih _)
                (hesc.trans (GrowsOk.addStepG (Or.inl rfl)))
          | error msg =>
            exact BatchInv.preB (ih _)
              (hesc.trans (GrowsOk.addStepG (Or.inr rfl)))

/-- The same invariant for a finished loop result. -/
def ResultInv (approved : Int) (st : LoopSt) (r : LoopResult) : Prop :=
  GrowsOk approved st.escs st.completed r.escalations r.steps ∧
  ∀ sp, r.suspend = some sp → approved + 1 < sp.proposed_level

theorem ResultInv.preR {approved : Int} {st st' : LoopSt} {r : LoopResult}
    (h : ResultInv approved st' r)
    (hg : GrowsOk approved st.escs st.completed st'.escs st'.completed) :
    ResultInv approved st r :=
  ⟨hg.trans h.1, h.2⟩

theorem governorFinish_inv (env : LoopEnv) (approved : Int) (st : LoopSt) :
    ResultInv approved st (governorFinish env st) := by
  unfold governorFinish
  cases hr : st.results with
  | nil =>
    refine ⟨GrowsOk.refl _ _ _, ?_⟩
    intro sp hsp
    exact absurd hsp (by simp [mkLoopResult])
  | cons a as =>
    refine ⟨GrowsOk.refl _ _ _, ?_⟩
    intro sp hsp
    exact absurd hsp (by simp [mkLoopResult])

theorem loopIter_inv (env : LoopEnv) (approved maxTime : Int) :
    ∀ (fuel : Nat) (iteration : Int) (st : LoopSt),
      ResultInv approved st (loopIter env approved maxTime fuel iteration st) := by
  intro fuel
  induction fuel with
  | zero =>
    intro iteration st
    exact governorFinish_inv env approved st
  | succ fuel ihf =>
    intro iteration st
    simp only [loopIter]
    split
    · refine ⟨GrowsOk.refl _ _ _, ?_⟩
      intro sp hsp
      exact absurd hsp (by simp [mkLoopResult])
    · split
      · exact governorFinish_inv env approved _
      · cases hb : env.planner st.pIdx st.nextId with
        | nil => exact governorFinish_inv env approved _
        | cons a as =>
          have hbatch := execBatch_inv env approved maxTime iteration (a :: as)
            ⟨st.completed, st.results, st.tools, st.escs, st.nextId,
              st.currentLevel, st.cIdx + 1, st.tIdx + 1, st.pIdx + 1, st.eIdx⟩
          cases hx : execBatch env approved maxTime iteration (a :: as)
              ⟨st.completed, st.results, st.tools, st.escs, st.nextId,
                st.currentLevel, st.cIdx + 1, st.tIdx + 1, st.pIdx + 1, st.eIdx⟩ with
          | ret r =>
            rw [hx] at hbatch
            exact hbatch
          | cont st4 =>
            rw [hx] at hbatch
            exact ResultInv.preR (ihf (iteration + 1) st4) hbatch

/-- The escalations a run starts with (from the resume snapshot). -/
def initEscs : Option LoopResumeState → List EscRec
  | none => []
  | some r => r.escalations

/-- The completed steps a run starts with (from the resume snapshot). -/
def initSteps : Option LoopResumeState → List LStep
  | none => []
  | some r => r.completed_steps

/-- C1: for a step whose required level exceeds the current level, the
escalation gate auto-approves exactly when the required level is at most
one above the originally approved level (recording an EscalationRecord
that raises `current_level` to the required level) and blocks exactly
when it exceeds approved+1; the direct path's `can_use` applies the same
rule, returning false (no suspension) on a block; and across any
`run_agent_loop` call (fresh or resumed) every appended escalation record
stays inside the grace band, every step appended to the completed log was
actually executed (done or failed — in particular a blocking step is
never executed), and a suspension's proposed level always exceeds
approved+1 while carrying a resumable snapshot. -/
theorem escalation_gate_spec :
    (∀ (required current approved stepId : Int) (intent : String),
      current < required →
      (((∃ e, escalationGate required current approved stepId intent =
          .auto e) ↔ required ≤ approved + 1) ∧
       (escalationGate required current approved stepId intent = .block ↔
          approved + 1 < required) ∧
       (∀ e, escalationGate required current approved stepId intent =
          .auto e →
          e.current_level = current ∧ e.requested_level = required))) ∧
    (∀ (required current approved : Int) (escs : List EscRec),
      current < required →
      (((canUse required current approved escs).allowed = true ↔
          required ≤ approved + 1) ∧
       (required ≤ approved + 1 →
          canUse required current approved escs =
            ⟨true, required, escs ++
              [⟨current, required, canUseReason required⟩]⟩) ∧
       (approved + 1 < required →
          canUse required current approved escs = ⟨false, current, escs⟩))) ∧
    (∀ (required current approved : Int) (escs : List EscRec),
      required ≤ current →
      canUse required current approved escs = ⟨true, current, escs⟩) ∧
    (∀ (env : LoopEnv) (plan : LoopPlan) (resume : Option LoopResumeState),
      ∃ newEscs newSteps,
        (runAgentLoop env plan resume).escalations =
          initEscs resume ++ newEscs ∧
        (∀ e ∈ newEscs, e.current_level < e.requested_level ∧
          e.requested_level ≤ plan.suggested_automation_level + 1) ∧
        (runAgentLoop env plan resume).steps = initSteps resume ++ newSteps ∧
        (∀ s ∈ newSteps, s.status = "done" ∨ s.status = "failed") ∧
        (∀ sp, (runAgentLoop env plan resume).suspend = some sp →
          plan.suggested_automation_level + 1 < sp.proposed_level)) := by
  refine ⟨?_, ?_, ?_, ?_⟩
  · intro required current approved stepId intent h
    refine ⟨?_, ?_, ?_⟩
    · constructor
      · rintro ⟨e, he⟩
        exact (escalationGate_auto_elim he).2.1
      · intro hle
        refine ⟨⟨current, required, escReason stepId intent required⟩, ?_⟩
        unfold escalationGate
        rw [if_neg (by omega), if_pos hle]
    · constructor
      · intro hb
        exact (escalationGate_block_elim hb).2
      · intro hgt
        unfold escalationGate
        rw [if_neg (by omega), if_neg (by omega)]
    · intro e he
      obtain ⟨_, _, he2⟩ := escalationGate_auto_elim he
      subst he2
      exact ⟨rfl, rfl⟩
  · intro required current approved escs h
    refine ⟨?_, ?_, ?_⟩
    · by_cases h2 : required ≤ approved + 1
      · unfold canUse
        rw [if_neg (by omega), if_pos h2]
        simp [h2]
      · unfold canUse
        rw [if_neg (by omega), if_neg h2]
        simp [h2]
    · intro h2
      unfold canUse
      rw [if_neg (by omega), if_pos h2]
    · intro h2
      unfold canUse
      rw [if_neg (by omega), if_neg (by omega)]
  · intro required current approved escs h
    unfold canUse
    rw [if_pos h]
  · intro env plan resume
    cases resume with
    | none =>
      obtain ⟨⟨es, ss, he, hq, hs, hd⟩, hsp⟩ :=
        loopIter_inv env plan.suggested_automation_level (loopMaxTime plan)
          (loopMaxTurns plan).toNat 0
          ⟨[], [], [], [], 1, plan.suggested_automation_level, 0, 0, 0, 0⟩
      exact ⟨es, ss, he, hq, hs, hd, hsp⟩
    | some r =>
      obtain ⟨⟨es, ss, he, hq, hs, hd⟩, hsp⟩ :=
        loopIter_inv env plan.suggested_automation_level (loopMaxTime plan)
          (loopMaxTurns plan - r.iteration).toNat r.iteration
          ⟨r.completed_steps, r.results, r.tools_used, r.escalations,
            r.next_step_id, plan.suggested_automation_level, 0, 0, 0, 0⟩
      exact ⟨es, ss, he, hq, hs, hd, hsp⟩

/-- C1 witness: the gate and `can_use` rules applied at concrete
levels: a bash step (level 3) under an approved level 2 is auto-approved,
a level-5 request under approved level 2 blocks. -/
theorem escalation_gate_spec_witness :
    (∃ e, escalationGate 3 2 2 7 "bash" = .auto e) ∧
    escalationGate 5 2 2 7 "bash" = .block ∧
    (canUse 3 2 2 []).allowed = true ∧
    canUse 5 2 2 [] = ⟨false, 2, []⟩ := by
  refine ⟨?_, ?_, ?_, ?_⟩
  · exact ((escalation_gate_spec.1 3 2 2 7 "bash" (by norm_num)).1).mpr
      (by norm_num)
  · exact ((escalation_gate_spec.1 5 2 2 7 "bash" (by norm_num)).2.1).mpr
      (by norm_num)
  · exact ((escalation_gate_spec.2.1 3 2 2 [] (by norm_num)).1).mpr
      (by norm_num)
  · exact (escalation_gate_spec.2.1 5 2 2 [] (by norm_num)).2.2 (by norm_num)

/-! ## C3 — cancellation -/

theorem loopIter_cancelled (env : LoopEnv) (approved maxTime : Int)
    (hc : ∀ i, env.cancelled i = true) :
    ∀ (fuel : Nat) (iteration : Int) (st : LoopSt),
      ((loopIter env approved maxTime fuel iteration st).steps = st.completed ∧
       (loopIter env approved maxTime fuel iteration st).suspend = none) ∧
      (fuel ≠ 0 →
        (loopIter env approved maxTime fuel iteration st).final_answer =
          (st.results.getLast?).getD cancelNotice) := by
  intro fuel iteration st
  cases fuel with
  | zero =>
    refine ⟨?_, fun h => absurd rfl h⟩
    unfold loopIter governorFinish
    cases hr : st.results with
    | nil => exact ⟨rfl, rfl⟩
    | cons a as => exact ⟨rfl, rfl⟩
  | succ fuel =>
    have h := hc st.cIdx
    simp only [loopIter, h, if_true]
    exact ⟨⟨rfl, rfl⟩, fun _ => rfl⟩

/-- C3 (amended): if the cancellation flag is set before any step
executes and at least one turn is available, the agent loop returns the
cancellation notice with a completed-steps log containing zero steps;
and whenever the flag is set from some step boundary on, the run
terminates without executing any further step and without suspending —
but if the final permitted turn was already consumed by a mid-batch
cancellation break, the loop falls through to governor compilation and
returns the compiled summary (`stopped=true`) rather than the last
collected result, and a cancelled fresh run whose `max_turns` governor is
0 returns the fixed limit message, not the cancellation notice. -/
theorem cancellation_determinism :
    (∀ (env : LoopEnv) (plan : LoopPlan),
      (∀ i, env.cancelled i = true) → 1 ≤ loopMaxTurns plan →
      (runAgentLoop env plan none).final_answer = cancelNotice ∧
      (runAgentLoop env plan none).steps = []) ∧
    (∀ (env : LoopEnv) (plan : LoopPlan) (resume : Option LoopResumeState),
      (∀ i, env.cancelled i = true) →
      (runAgentLoop env plan resume).steps = initSteps resume ∧
      (runAgentLoop env plan resume).suspend = none) := by
  constructor
  · intro env plan hc hturns
    have hfuel : (loopMaxTurns plan).toNat ≠ 0 := by omega
    have h := loopIter_cancelled env plan.suggested_automation_level
      (loopMaxTime plan) hc (loopMaxTurns plan).toNat 0
      ⟨[], [], [], [], 1, plan.suggested_automation_level, 0, 0, 0, 0⟩
    exact ⟨h.2 hfuel, h.1.1⟩
  · intro env plan resume hc
    cases resume with
    | none =>
      have h := loopIter_cancelled env plan.suggested_automation_level
        (loopMaxTime plan) hc (loopMaxTurns plan).toNat 0
        ⟨[], [], [], [], 1, plan.suggested_automation_level, 0, 0, 0, 0⟩
      exact h.1
    | some r =>
      have h := loopIter_cancelled env plan.suggested_automation_level
        (loopMaxTime plan) hc (loopMaxTurns plan - r.iteration).toNat
        r.iteration
        ⟨r.completed_steps, r.results, r.tools_used, r.escalations,
          r.next_step_id, plan.suggested_automation_level, 0, 0, 0, 0⟩
      exact h.1

/-- Environment of the first C3 counterexample: always cancelled, no
steps ever planned. -/
def c3env1 : LoopEnv :=
  { cancelled := fun _ => true
    elapsed := fun _ => 0
    planner := fun _ _ => []
    execStep := fun _ => .ok ""
    compile := fun _ => "C" }

/-- A level-3 plan whose `max_turns` governor is 0. -/
def c3plan1 : LoopPlan := ⟨3, false, ⟨some 0, none⟩⟩

/-- Environment of the second C3 counterexample: the kill switch fires at
the third cancellation poll, i.e. mid-batch before the second planned
step; the planner plans two research steps per turn. -/
def c3env2 : LoopEnv :=
  { cancelled := fun i => decide (2 ≤ i)
    elapsed := fun _ => 0
    planner := fun _ n =>
      [⟨n, "research", "r1", [], "pending", ""⟩,
       ⟨n + 1, "research", "r2", [], "pending", ""⟩]
    execStep := fun _ => .ok "A"
    compile := fun _ => "COMPILED" }

/-- A level-3 plan with `max_turns = 1`. -/
def c3plan2 : LoopPlan := ⟨3, false, ⟨some 1, none⟩⟩

/-- C3 counterexample: (i) a run cancelled before any step with
`max_turns = 0` returns the fixed limit message, not the cancellation
notice; (ii) a mid-batch cancellation on the final turn falls through to
governor compilation and returns the compiled text "COMPILED" instead of
the last available result "A". -/
theorem cancellation_governor_counterexample :
    (runAgentLoop c3env1 c3plan1 none).final_answer = limitMsg ∧
    (runAgentLoop c3env1 c3plan1 none).steps = [] ∧
    limitMsg ≠ cancelNotice ∧
    (runAgentLoop c3env2 c3plan2 none).final_answer = "COMPILED" ∧
    (runAgentLoop c3env2 c3plan2 none).steps.map LStep.result_summary =
      ["A"] ∧
    (runAgentLoop c3env2 c3plan2 none).stopped = true ∧
    ("COMPILED" : String) ≠ "A" := by
  refine ⟨rfl, rfl, by decide, ?_, ?_, ?_, by decide⟩
  · rfl
  · rfl
  · rfl

/-- C3 witness: the amended theorem applied at the always-cancelled
environment with the default turn governor. -/
theorem cancellation_determinism_witness :
    (runAgentLoop c3env1 ⟨3, false, ⟨none, none⟩⟩ none).final_answer =
      cancelNotice ∧
    (runAgentLoop c3env1 ⟨3, false, ⟨none, none⟩⟩ none).steps = [] :=
  cancellation_determinism.1 c3env1 ⟨3, false, ⟨none, none⟩⟩
    (fun _ => rfl) (by decide)

/-! ## C6 — step id monotonicity -/

/-- The planner batch numbers its steps consecutively starting at the
requested `next_step_id` (which the prompt demands and the synthetic
fallback step satisfies). -/
def Numbered : Int → List LStep → Prop
  | _, [] => True
  | n, s :: rest => s.step_id = n ∧ Numbered (n + 1) rest

def decNumbered : (n : Int) → (l : List LStep) → Decidable (Numbered n l)
  | _, [] => .isTrue trivial
  | n, s :: rest =>
    haveI := decNumbered (n + 1) rest
    inferInstanceAs (Decidable (s.step_id = n ∧ Numbered (n + 1) rest))

instance (n : Int) (l : List LStep) : Decidable (Numbered n l) :=
  decNumbered n l

/-- The completed log's step ids are strictly increasing and all below
the next id to be assigned. -/
def StepIdsOk (steps : List LStep) (next : Int) : Prop :=
  List.Pairwise (fun a b => a.step_id < b.step_id) steps ∧
  ∀ s ∈ steps, s.step_id < next

theorem StepIdsOk.addStepI {steps : List LStep} {next : Int} {s : LStep}
    (h : StepIdsOk steps next) (hs : s.step_id = next) :
    StepIdsOk (steps ++ [s]) (s.step_id + 1) := by
  obtain ⟨hp, hb⟩ := h
  constructor
  · rw [List.pairwise_append]
    refine ⟨hp, List.pairwise_singleton _ _, ?_⟩
    intro a ha b hb'
    rw [List.mem_singleton] at hb'
    subst hb'
    rw [hs]
    exact hb a ha
  · intro x hx
    rcases List.mem_append.mp hx with h | h
    · have := hb x h
      omega
    · rw [List.mem_singleton] at h
      subst h
      omega

/-- The step-id invariant on an EXECUTE-phase outcome: the invariant is
preserved on continuation, a returned log is strictly increasing, and a
suspension snapshot satisfies the invariant (its `next_step_id` is the
blocked step's id, above every completed id). -/
def BatchIds : BatchOut → Prop
  | .cont out => StepIdsOk out.completed out.nextId
  | .ret r =>
    List.Pairwise (fun a b => a.step_id < b.step_id) r.steps ∧
    ∀ sp, r.suspend = some sp →
      StepIdsOk sp.resume_state.completed_steps
        sp.resume_state.next_step_id

/-- The same invariant on a finished loop result. -/
def ResultIds (r : LoopResult) : Prop :=
  List.Pairwise (fun a b => a.step_id < b.step_id) r.steps ∧
  ∀ sp, r.suspend = some sp →
    StepIdsOk sp.resume_state.completed_steps sp.resume_state.next_step_id

theorem execBatch_ids (env : LoopEnv) (approved maxTime iteration : Int) :
    ∀ (batch : List LStep) (st : LoopSt), Numbered st.nextId batch →
      StepIdsOk st.completed st.nextId →
      BatchIds (execBatch env approved maxTime iteration batch st) := by
  intro batch
  induction batch with
  | nil =>
    intro st _ hok
    exact hok
  | cons step rest ih =>
    intro st hnum hok
    obtain ⟨hid, hnum'⟩ := hnum
    simp only [execBatch]
    split
    · exact hok
    · split
      · exact hok
      · generalize hgate : escalationGate (intentMinLevel step.intent)
            st.currentLevel approved step.step_id step.intent = g
        cases g with
        | block =>
          refine ⟨hok.1, ?_⟩
          intro sp hsp
          simp only [suspendResult] at hsp
          injection hsp with hsp
          subst hsp
          dsimp only
          rw [hid]
          exact hok
        | allow =>
          dsimp only [gateApply]
          cases hexec : env.execStep st.eIdx with
          | ok txt =>
            dsimp only
            have hok' : StepIdsOk
                (st.completed ++
                  [{step with status := "done"
                              result_summary := pyTake txt 200}])
                (step.step_id + 1) := hok.addStepI hid
            have hnum'' : Numbered (step.step_id + 1) rest := by
              rw [hid]; exact hnum'
            by_cases hfin : step.intent = "finalize"
            · by_cases htxt : txt = ""
              · rw [if_pos hfin, if_pos htxt]
                exact ih _ hnum'' hok'
              · rw [if_pos hfin, if_neg htxt]
                refine ⟨hok'.1, ?_⟩
                intro sp hsp
                exact absurd hsp (by simp [mkLoopResult])
            · rw [if_neg hfin]
              exact ih _ hnum'' hok'
          | error msg =>
            have hok' : StepIdsOk
                (st.completed ++
                  [{step with status := "failed"
                              result_summary := pyTake msg 200}])
                (step.step_id + 1) := hok.addStepI hid
            have hnum'' : Numbered (step.step_id + 1) rest := by
              rw [hid]; exact hnum'
            exact ih _ hnum'' hok'
        | auto e =>
          dsimp only [gateApply]
          cases hexec : env.execStep st.eIdx with
          | ok txt =>
            dsimp only
            have hok' : StepIdsOk
                (st.completed ++
                  [{step with status := "done"
                              result_summary := pyTake txt 200}])
                (step.step_id + 1) := hok.addStepI hid
            have hnum'' : Numbered (step.step_id + 1) rest := by
              rw [hid]; exact hnum'
            by_cases hfin : step.intent = "finalize"
            · by_cases htxt : txt = ""
              · rw [if_pos hfin, if_pos htxt]
                exact ih _ hnum'' hok'
              · rw [if_pos hfin, if_neg htxt]
                refine ⟨hok'.1, ?_⟩
                intro sp hsp
                exact absurd hsp (by simp [mkLoopResult])
            · rw [if_neg hfin]
              exact ih _ hnum'' hok'
          | error msg =>
            have hok' : StepIdsOk
                (st.completed ++
                  [{step with status := "failed"
                              result_summary := pyTake msg 200}])
                (step.step_id + 1) := hok.addStepI hid
            have hnum'' : Numbered (step.step_id + 1) rest := by
              rw [hid]; exact hnum'
            exact ih _ hnum'' hok'

theorem loopIter_ids (env : LoopEnv) (approved maxTime : Int)
    (hpl : ∀ i n, Numbered n (env.planner i n)) :
    ∀ (fuel : Nat) (iteration : Int) (st : LoopSt),
      StepIdsOk st.completed st.nextId →
      ResultIds (loopIter env approved maxTime fuel iteration st) := by
  intro fuel
  induction fuel with
  | zero =>
    intro iteration st hok
    unfold loopIter governorFinish
    cases hr : st.results with
    | nil =>
      exact ⟨hok.1, fun sp hsp => absurd hsp (by simp [mkLoopResult])⟩
    | cons a as =>
      exact ⟨hok.1, fun sp hsp => absurd hsp (by simp [mkLoopResult])⟩
  | succ fuel ihf =>
    intro iteration st hok
    simp only [loopIter]
    split
    · exact ⟨hok.1, fun sp hsp => absurd hsp (by simp [mkLoopResult])⟩
    · split
      · unfold governorFinish
        cases hr : st.results with
        | nil =>
          exact ⟨hok.1, fun sp hsp => absurd hsp (by simp [mkLoopResult])⟩
        | cons a as =>
          exact ⟨hok.1, fun sp hsp => absurd hsp (by simp [mkLoopResult])⟩
      · cases hb : env.planner st.pIdx st.nextId with
        | nil =>
          unfold governorFinish
          cases hr : st.results with
          | nil =>
            exact ⟨hok.1, fun sp hsp => absurd hsp (by simp [mkLoopResult])⟩
          | cons a as =>
            exact ⟨hok.1, fun sp hsp => absurd hsp (by simp [mkLoopResult])⟩
        | cons a as =>
          have hnum : Numbered st.nextId (a :: as) := by
            have h := hpl st.pIdx st.nextId
            rw [hb] at h
            exact h
          have hbatch := execBatch_ids env approved maxTime iteration
            (a :: as)
            ⟨st.completed, st.results, st.tools, st.escs, st.nextId,
              st.currentLevel, st.cIdx + 1, st.tIdx + 1, st.pIdx + 1,
              st.eIdx⟩ hnum hok
          cases hx : execBatch env approved maxTime iteration (a :: as)
              ⟨st.completed, st.results, st.tools, st.escs, st.nextId,
                st.currentLevel, st.cIdx + 1, st.tIdx + 1, st.pIdx + 1,
                st.eIdx⟩ with
          | ret r =>
            rw [hx] at hbatch
            exact hbatch
          | cont st4 =>
            rw [hx] at hbatch
            exact ihf (iteration + 1) st4 hbatch

/-- C6 (amended): provided every planner batch numbers its steps
consecutively from the requested `next_step_id` (which the planner prompt
demands and the synthetic fallback step guarantees, but which the loop
does not enforce against the external model), the step ids of the
completed-steps log are strictly increasing across a full run — never
reused — including across a suspension, whose resume snapshot again
satisfies the numbering invariant so that a resumed run preserves it. -/
theorem step_id_monotone :
    ∀ (env : LoopEnv) (plan : LoopPlan) (resume : Option LoopResumeState),
      (∀ i n, Numbered n (env.planner i n)) →
      (match resume with
       | none => True
       | some r => StepIdsOk r.completed_steps r.next_step_id) →
      List.Pairwise (fun a b => a.step_id < b.step_id)
        (runAgentLoop env plan resume).steps ∧
      ((runAgentLoop env plan resume).steps.map LStep.step_id).Nodup ∧
      (∀ sp, (runAgentLoop env plan resume).suspend = some sp →
        StepIdsOk sp.resume_state.completed_steps
          sp.resume_state.next_step_id) := by
  intro env plan resume hpl hres
  have main : ResultIds (runAgentLoop env plan resume) := by
    cases resume with
    | none =>
      exact loopIter_ids env plan.suggested_automation_level
        (loopMaxTime plan) hpl (loopMaxTurns plan).toNat 0
        ⟨[], [], [], [], 1, plan.suggested_automation_level, 0, 0, 0, 0⟩
        ⟨List.Pairwise.nil, fun s hs => absurd hs (by simp)⟩
    | some r =>
      exact loopIter_ids env plan.suggested_automation_level
        (loopMaxTime plan) hpl (loopMaxTurns plan - r.iteration).toNat
        r.iteration
        ⟨r.completed_steps, r.results, r.tools_used, r.escalations,
          r.next_step_id, plan.suggested_automation_level, 0, 0, 0, 0⟩
        hres
  refine ⟨main.1, ?_, main.2⟩
  have hp : List.Pairwise (fun a b : Int => a < b)
      ((runAgentLoop env plan resume).steps.map LStep.step_id) :=
    (List.pairwise_map).mpr main.1
  exact hp.imp (fun h => ne_of_lt h)

/-- Environment of the C6 counterexample: the external planner ignores
the requested `next_step_id` and always returns a step numbered 1. -/
def c6env : LoopEnv :=
  { cancelled := fun _ => false
    elapsed := fun _ => 0
    planner := fun _ _ => [⟨1, "research", "r", [], "pending", ""⟩]
    execStep := fun _ => .ok "x"
    compile := fun _ => "done" }

/-- A level-3 plan with `max_turns = 2`. -/
def c6plan : LoopPlan := ⟨3, false, ⟨some 2, none⟩⟩

/-- C6 counterexample: the loop trusts the planner's numbering, so a
planner that reuses step id 1 produces a completed log with ids [1, 1] —
not strictly increasing, id 1 reused. -/
theorem step_id_reuse_counterexample :
    (runAgentLoop c6env c6plan none).steps.map LStep.step_id = [1, 1] ∧
    ¬ List.Pairwise (fun a b : Int => a < b)
        ((runAgentLoop c6env c6plan none).steps.map LStep.step_id) := by
  constructor
  · rfl
  · rw [show (runAgentLoop c6env c6plan none).steps.map LStep.step_id =
      [1, 1] from rfl]
    intro h
    have := List.rel_of_pairwise_cons h (List.mem_singleton.mpr rfl)
    omega

/-- Environment of the C6 witness: a planner that numbers correctly. -/
def c6goodEnv : LoopEnv :=
  { cancelled := fun _ => false
    elapsed := fun _ => 0
    planner := fun _ n => [⟨n, "research", "r", [], "pending", ""⟩]
    execStep := fun _ => .ok "x"
    compile := fun _ => "done" }

/-- C6 witness: the amended theorem applied at a compliant planner. -/
theorem step_id_monotone_witness :
    List.Pairwise (fun a b => a.step_id < b.step_id)
      (runAgentLoop c6goodEnv c6plan none).steps ∧
    ((runAgentLoop c6goodEnv c6plan none).steps.map LStep.step_id).Nodup :=
  ⟨(step_id_monotone c6goodEnv c6plan none
      (fun _ _ => ⟨rfl, trivial⟩) trivial).1,
   (step_id_monotone c6goodEnv c6plan none
      (fun _ _ => ⟨rfl, trivial⟩) trivial).2.1⟩

/-! ## C8: the refinement budget of the direct path -/

/-- The number of refinement generation calls a critique sub-step
outcome contributed. -/
def evDelta : Option CritEvent → Nat
  | some e => if e.refined then 1 else 0
  | none => 0

theorem evDelta_le (o : Option CritEvent) : evDelta o ≤ 1 := by
  cases o with
  | none => simp [evDelta]
  | some e =>
      simp only [evDelta]
      split
      · omega
      · omega

theorem gatedSt_refinementCount (a : Int) (st : DirectSt) :
    (gatedSt a st).refinementCount = st.refinementCount := rfl

theorem gatedSt_genCalls (a : Int) (st : DirectSt) :
    (gatedSt a st).genCalls = st.genCalls := rfl

theorem gatedSt_tIdx (a : Int) (st : DirectSt) :
    (gatedSt a st).tIdx = st.tIdx := rfl

theorem gatedSt_turns (a : Int) (st : DirectSt) :
    (gatedSt a st).turns = st.turns := rfl

theorem gatedSt_currentLevel (a : Int) (st : DirectSt) :
    (gatedSt a st).currentLevel
      = (canUse 2 st.currentLevel a st.escs).level := rfl

theorem canUse_level_le (required current approved : Int)
    (escs : List EscRec) :
    (canUse required current approved escs).level ≤ max current required := by
  unfold canUse
  split
  · exact le_max_left _ _
  · split
    · exact le_max_right _ _
    · exact le_max_left _ _

theorem canUse_denied (required current approved : Int) (escs : List EscRec)
    (h : (canUse required current approved escs).allowed = false) :
    current < required ∧ approved + 1 < required ∧
      (canUse required current approved escs).level = current := by
  unfold canUse at h ⊢
  by_cases h1 : required ≤ current
  · rw [if_pos h1] at h
    simp at h
  · rw [if_neg h1] at h ⊢
    by_cases h2 : required ≤ approved + 1
    · rw [if_pos h2] at h
      simp at h
    · rw [if_neg h2]
      exact ⟨lt_of_not_le h1, lt_of_not_le h2, rfl⟩

theorem canUse_allowed (required current approved : Int) (escs : List EscRec)
    (h : (canUse required current approved escs).allowed = true) :
    required ≤ current ∨ required ≤ approved + 1 := by
  unfold canUse at h
  by_cases h1 : required ≤ current
  · exact Or.inl h1
  · rw [if_neg h1] at h
    by_cases h2 : required ≤ approved + 1
    · exact Or.inr h2
    · rw [if_neg h2] at h
      simp at h

/-- A governor denial is stable under a later (larger) elapsed-time
reading at the same turn count. -/
theorem checkGovernors_mono_false (mt mn : Option Int) (e1 e2 : Int) (t : Nat)
    (h : checkGovernors mt mn e1 t = false) (he : e1 ≤ e2) :
    checkGovernors mt mn e2 t = false := by
  unfold checkGovernors at h ⊢
  by_cases h2 : (truthyOptInt mn && decide ((t : Int) ≥ mn.getD 0)) = true
  · by_cases h3 : (truthyOptInt mt && decide (e2 > mt.getD 0)) = true
    · rw [if_pos h3]
    · rw [if_neg h3, if_pos h2]
  · by_cases h1 : (truthyOptInt mt && decide (e1 > mt.getD 0)) = true
    · rw [Bool.and_eq_true] at h1
      obtain ⟨ha, hb⟩ := h1
      have hlt : mt.getD 0 < e1 := of_decide_eq_true hb
      have h3 : (truthyOptInt mt && decide (e2 > mt.getD 0)) = true := by
        rw [Bool.and_eq_true]
        exact ⟨ha, decide_eq_true (lt_of_lt_of_le hlt he)⟩
      rw [if_pos h3]
    · rw [if_neg h1, if_neg h2] at h
      simp at h

/-- The refinement counter and the generation-call counter of the
critique template move in lockstep: both grow by one exactly when the
sub-step refined. -/
theorem critiqueStage_budget (a : Int) (mt mn : Option Int) (wp : String)
    (c g : String → String) (now : Nat → Int) (st : DirectSt) :
    (critiqueStage a mt mn wp c g now st).1.refinementCount
      = st.refinementCount
        + (if (critiqueStage a mt mn wp c g now st).2.refined then 1
           else 0) ∧
    (critiqueStage a mt mn wp c g now st).1.genCalls
      = st.genCalls
        + (if (critiqueStage a mt mn wp c g now st).2.refined then 1
           else 0) := by
  simp only [critiqueStage]
  by_cases hdif : (decide (c st.result ≠ "")
      && decide (pyStrip (c st.result) ≠ pyStrip st.result)) = true
  · rw [if_pos hdif]
    by_cases hcu : ((canUse 3 st.currentLevel a st.escs).allowed
        && decide (st.refinementCount < 1)) = true
    · rw [if_pos hcu]
      by_cases hgv : checkGovernors mt mn (now st.tIdx) (st.turns + 1) = true
      · rw [if_pos hgv]
        exact ⟨by simp, by simp⟩
      · rw [if_neg hgv]
        exact ⟨by simp, by simp⟩
    · rw [if_neg hcu]
      exact ⟨by simp, by simp⟩
  · rw [if_neg hdif]
    exact ⟨by simp, by simp⟩

/-- What a critique-template event certifies: a refinement only happens
on a material difference with an unspent budget and a level-3 grant, and
a differing critique that did not refine was applied verbatim. -/
theorem critiqueStage_event (a : Int) (mt mn : Option Int) (wp : String)
    (c g : String → String) (now : Nat → Int) (st : DirectSt) :
    ((critiqueStage a mt mn wp c g now st).2.refined = true →
       (critiqueStage a mt mn wp c g now st).2.differs = true ∧
       st.refinementCount = 0 ∧
       (canUse 3 st.currentLevel a st.escs).allowed = true) ∧
    ((critiqueStage a mt mn wp c g now st).2.differs = true →
       (critiqueStage a mt mn wp c g now st).2.refined = false →
       (critiqueStage a mt mn wp c g now st).2.resultAfter
         = (critiqueStage a mt mn wp c g now st).2.critOut) := by
  simp only [critiqueStage]
  by_cases hdif : (decide (c st.result ≠ "")
      && decide (pyStrip (c st.result) ≠ pyStrip st.result)) = true
  · rw [if_pos hdif]
    by_cases hcu : ((canUse 3 st.currentLevel a st.escs).allowed
        && decide (st.refinementCount < 1)) = true
    · rw [if_pos hcu]
      rw [Bool.and_eq_true] at hcu
      obtain ⟨hal, hlt⟩ := hcu
      have hz : st.refinementCount = 0 := by
        have := of_decide_eq_true hlt
        omega
      by_cases hgv : checkGovernors mt mn (now st.tIdx) (st.turns + 1) = true
      · rw [if_pos hgv]
        exact ⟨fun _ => ⟨rfl, hz, hal⟩, fun _ h => by simp at h⟩
      · rw [if_neg hgv]
        exact ⟨fun h => by simp at h, fun _ _ => rfl⟩
    · rw [if_neg hcu]
      exact ⟨fun h => by simp at h, fun _ _ => rfl⟩
  · rw [if_neg hdif]
    exact ⟨fun h => by simp at h, fun h => by simp at h⟩

/-- When a critique differed materially but did not refine (with a fresh
budget), the cause is stable: either the level-3 grant was denied (which
pins the level at or below 2 and the approved level at or below 1), or
the governors denied at that very reading. -/
theorem critiqueStage_first (a : Int) (mt mn : Option Int) (wp : String)
    (c g : String → String) (now : Nat → Int) (st : DirectSt)
    (hd : (critiqueStage a mt mn wp c g now st).2.differs = true)
    (hr : (critiqueStage a mt mn wp c g now st).2.refined = false)
    (hc : st.refinementCount = 0) :
    ((canUse 3 st.currentLevel a st.escs).allowed = false ∧
       (critiqueStage a mt mn wp c g now st).1.currentLevel
         = st.currentLevel ∧
       (critiqueStage a mt mn wp c g now st).1.tIdx = st.tIdx ∧
       (critiqueStage a mt mn wp c g now st).1.turns = st.turns + 1) ∨
    (checkGovernors mt mn (now st.tIdx) (st.turns + 1) = false ∧
       (critiqueStage a mt mn wp c g now st).1.tIdx = st.tIdx + 1 ∧
       (critiqueStage a mt mn wp c g now st).1.turns = st.turns + 1) := by
  simp only [critiqueStage] at hd hr ⊢
  by_cases hdif : (decide (c st.result ≠ "")
      && decide (pyStrip (c st.result) ≠ pyStrip st.result)) = true
  · rw [if_pos hdif] at hr ⊢
    by_cases hcu : ((canUse 3 st.currentLevel a st.escs).allowed
        && decide (st.refinementCount < 1)) = true
    · rw [if_pos hcu] at hr ⊢
      by_cases hgv : checkGovernors mt mn (now st.tIdx) (st.turns + 1) = true
      · rw [if_pos hgv] at hr
        simp at hr
      · rw [if_neg hgv] at hr ⊢
        refine Or.inr ⟨?_, rfl, rfl⟩
        exact Bool.eq_false_iff.mpr hgv
    · rw [if_neg hcu] at hr ⊢
      have hdec : decide (st.refinementCount < 1) = true :=
        decide_eq_true (by omega)
      have hal : (canUse 3 st.currentLevel a st.escs).allowed = false := by
        cases hA : (canUse 3 st.currentLevel a st.escs).allowed
        · rfl
        · exact absurd (by rw [hA, hdec]; rfl) hcu
      obtain ⟨_, _, hlev⟩ := canUse_denied 3 st.currentLevel a st.escs hal
      exact Or.inl ⟨hal, hlev, rfl, rfl⟩
  · rw [if_neg hdif] at hd
    simp at hd

/-- The lockstep counters of `critiqueStage`, lifted through the enable
check and the `can_use(2)` gate. -/
theorem critGate_budget (a : Int) (mt mn : Option Int) (wp : String)
    (en : Bool) (c g : String → String) (now : Nat → Int) (st : DirectSt) :
    (critGate a mt mn wp en c g now st).1.refinementCount
      = st.refinementCount
        + evDelta (critGate a mt mn wp en c g now st).2 ∧
    (critGate a mt mn wp en c g now st).1.genCalls
      = st.genCalls + evDelta (critGate a mt mn wp en c g now st).2 := by
  simp only [critGate]
  by_cases hen : en = true
  · rw [if_pos hen]
    by_cases hcu : (canUse 2 st.currentLevel a st.escs).allowed = true
    · rw [if_pos hcu]
      have hb := critiqueStage_budget a mt mn wp c g now (gatedSt a st)
      rw [gatedSt_refinementCount, gatedSt_genCalls] at hb
      simp only [evDelta]
      exact hb
    · rw [if_neg hcu]
      simp [evDelta, gatedSt_refinementCount, gatedSt_genCalls]
  · rw [if_neg hen]
    simp [evDelta]

/-- The event facts of `critiqueStage`, lifted through the gate: a
refinement needs a material difference, a zero budget coming in, and an
effective level 3 (impossible when the incoming level is at most 2 and
the approved level at most 1); a differing critique that did not refine
was applied verbatim. -/
theorem critGate_event (a : Int) (mt mn : Option Int) (wp : String)
    (en : Bool) (c g : String → String) (now : Nat → Int) (st : DirectSt)
    (e : CritEvent) (h : (critGate a mt mn wp en c g now st).2 = some e) :
    (e.refined = true →
       e.differs = true ∧ st.refinementCount = 0 ∧
       (st.currentLevel ≤ 2 → a ≤ 1 → False)) ∧
    (e.differs = true → e.refined = false →
       e.resultAfter = e.critOut) := by
  revert h
  simp only [critGate]
  by_cases hen : en = true
  · rw [if_pos hen]
    by_cases hcu : (canUse 2 st.currentLevel a st.escs).allowed = true
    · rw [if_pos hcu]
      intro h
      have he : (critiqueStage a mt mn wp c g now (gatedSt a st)).2 = e :=
        Option.some.inj h
      have hev := critiqueStage_event a mt mn wp c g now (gatedSt a st)
      rw [he, gatedSt_refinementCount, gatedSt_currentLevel] at hev
      constructor
      · intro hrf
        obtain ⟨hd, hz, hal⟩ := hev.1 hrf
        refine ⟨hd, hz, ?_⟩
        intro hst ha
        have hle := canUse_level_le 2 st.currentLevel a st.escs
        rcases canUse_allowed 3 _ a _ hal with h3 | h3
        · have hmax : max st.currentLevel 2 ≤ 2 := max_le hst le_rfl
          omega
        · omega
      · exact hev.2
    · rw [if_neg hcu]
      intro h
      simp at h
  · rw [if_neg hen]
    intro h
    simp at h

/-- The first-trigger fact, lifted through the gate: when the critique
differed but did not refine (with a fresh budget), either the level is
pinned at or below 2 with the approved level at or below 1, or the
governors denied at the sub-step reading — and the termination-relevant
bookkeeping (time index and turn count) is recorded either way. -/
theorem critGate_first (a : Int) (mt mn : Option Int) (wp : String)
    (en : Bool) (c g : String → String) (now : Nat → Int) (st : DirectSt)
    (e : CritEvent) (h : (critGate a mt mn wp en c g now st).2 = some e)
    (hd : e.differs = true) (hr : e.refined = false)
    (hc : st.refinementCount = 0) :
    ((critGate a mt mn wp en c g now st).1.currentLevel ≤ 2 ∧ a ≤ 1 ∧
       (critGate a mt mn wp en c g now st).1.tIdx = st.tIdx ∧
       (critGate a mt mn wp en c g now st).1.turns = st.turns + 1) ∨
    (checkGovernors mt mn (now st.tIdx) (st.turns + 1) = false ∧
       (critGate a mt mn wp en c g now st).1.tIdx = st.tIdx + 1 ∧
       (critGate a mt mn wp en c g now st).1.turns = st.turns + 1) := by
  revert h
  simp only [critGate]
  by_cases hen : en = true
  · rw [if_pos hen]
    by_cases hcu : (canUse 2 st.currentLevel a st.escs).allowed = true
    · rw [if_pos hcu]
      intro h
      have he : (critiqueStage a mt mn wp c g now (gatedSt a st)).2 = e :=
        Option.some.inj h
      have hd2 : (critiqueStage a mt mn wp c g now (gatedSt a st)).2.differs
          = true := by rw [he]; exact hd
      have hr2 : (critiqueStage a mt mn wp c g now (gatedSt a st)).2.refined
          = false := by rw [he]; exact hr
      have hc2 : (gatedSt a st).refinementCount = 0 := by
        rw [gatedSt_refinementCount]; exact hc
      have hf := critiqueStage_first a mt mn wp c g now (gatedSt a st)
        hd2 hr2 hc2
      rw [gatedSt_currentLevel, gatedSt_tIdx, gatedSt_turns] at hf
      dsimp only
      rcases hf with ⟨hal, hlev, hti, htu⟩ | ⟨hgf, hti, htu⟩
      · obtain ⟨hlt, hap, _⟩ := canUse_denied 3 _ a _ hal
        refine Or.inl ⟨?_, by omega, hti, htu⟩
        rw [hlev]
        have hle := canUse_level_le 2 st.currentLevel a st.escs
        omega
      · exact Or.inr ⟨hgf, hti, htu⟩
    · rw [if_neg hcu]
      intro h
      simp at h
  · rw [if_neg hen]
    intro h
    simp at h

/-- The refinement-budget invariant over the tail of `_execute_direct`,
for a state entering with a fresh budget and one generation call made:
the budget is never exceeded, generation calls stay in lockstep, every
critique event is internally consistent, and (under monotone elapsed-time
readings) a differing verification critique forecloses a code-review
refinement. -/
theorem directTail_spec (env : DirectEnv) (plan : DirectPlan) (approved : Int)
    (workerPrompt : String) (useWeb : Bool) (st2 : DirectSt)
    (hmono : ∀ i j : Nat, i ≤ j → env.now i ≤ env.now j)
    (hcnt : st2.refinementCount = 0) (hgen : st2.genCalls = 1) :
    (directTail env plan approved workerPrompt useWeb st2).refinementCount
      ≤ 1 ∧
    (directTail env plan approved workerPrompt useWeb st2).genCalls
      = 1 + (directTail env plan approved workerPrompt
          useWeb st2).refinementCount ∧
    (∀ e, ((directTail env plan approved workerPrompt useWeb st2).verifyEv
            = some e ∨
           (directTail env plan approved workerPrompt useWeb st2).reviewEv
            = some e) →
       (e.refined = true → e.differs = true) ∧
       (e.differs = true → e.refined = false →
          e.resultAfter = e.critOut)) ∧
    (∀ e e2,
       (directTail env plan approved workerPrompt useWeb st2).verifyEv
         = some e →
       e.differs = true →
       (directTail env plan approved workerPrompt useWeb st2).reviewEv
         = some e2 →
       e2.refined = false) := by
  have hb2 := critGate_budget approved plan.maxTime plan.maxTurns workerPrompt
    plan.require_verification env.sanity
    (if useWeb then env.genWeb else env.genFast) env.now st2
  simp only [directTail]
  rcases hs2 : critGate approved plan.maxTime plan.maxTurns workerPrompt
      plan.require_verification env.sanity
      (if useWeb then env.genWeb else env.genFast) env.now st2 with ⟨s3, vEv⟩
  rw [hs2] at hb2
  dsimp only at hb2 ⊢
  obtain ⟨hcnt3, hgen3⟩ := hb2
  have hdv2 := evDelta_le vEv
  by_cases hc1 : env.cancelled 1 = true
  · rw [if_pos hc1]
    dsimp only
    refine ⟨by omega, by omega, ?_, ?_⟩
    · intro e he
      rcases he with he | he
      · have h2 : (critGate approved plan.maxTime plan.maxTurns workerPrompt
            plan.require_verification env.sanity
            (if useWeb then env.genWeb else env.genFast) env.now st2).2
            = some e := by rw [hs2]; exact he
        have hev := critGate_event approved plan.maxTime plan.maxTurns
          workerPrompt plan.require_verification env.sanity
          (if useWeb then env.genWeb else env.genFast) env.now st2 e h2
        exact ⟨fun hrf => (hev.1 hrf).1, hev.2⟩
      · exact Option.noConfusion he
    · intro e e2 hve hde hre
      exact Option.noConfusion hre
  · rw [if_neg hc1]
    by_cases hg2 : (!checkGovernors plan.maxTime plan.maxTurns
        (env.now s3.tIdx) s3.turns) = true
    · rw [if_pos hg2]
      dsimp only
      refine ⟨by omega, by omega, ?_, ?_⟩
      · intro e he
        rcases he with he | he
        · have h2 : (critGate approved plan.maxTime plan.maxTurns workerPrompt
              plan.require_verification env.sanity
              (if useWeb then env.genWeb else env.genFast) env.now st2).2
              = some e := by rw [hs2]; exact he
          have hev := critGate_event approved plan.maxTime plan.maxTurns
            workerPrompt plan.require_verification env.sanity
            (if useWeb then env.genWeb else env.genFast) env.now st2 e h2
          exact ⟨fun hrf => (hev.1 hrf).1, hev.2⟩
        · exact Option.noConfusion he
      · intro e e2 hve hde hre
        exact Option.noConfusion hre
    · rw [if_neg hg2]
      have hg2t : checkGovernors plan.maxTime plan.maxTurns
          (env.now s3.tIdx) s3.turns = true := by
        revert hg2
        cases checkGovernors plan.maxTime plan.maxTurns (env.now s3.tIdx)
          s3.turns
        · intro hg2
          exact absurd rfl hg2
        · intro _
          rfl
      have hb3 := critGate_budget approved plan.maxTime plan.maxTurns
        workerPrompt plan.require_code_review env.review env.genFast env.now
        ⟨s3.result, s3.currentLevel, s3.escs, s3.refinementCount, s3.turns,
          s3.genCalls, s3.tIdx + 1⟩
      rcases hs3 : critGate approved plan.maxTime plan.maxTurns workerPrompt
          plan.require_code_review env.review env.genFast env.now
          ⟨s3.result, s3.currentLevel, s3.escs, s3.refinementCount, s3.turns,
            s3.genCalls, s3.tIdx + 1⟩ with ⟨s5, rEv⟩
      rw [hs3] at hb3
      dsimp only at hb3 ⊢
      obtain ⟨hcnt5, hgen5⟩ := hb3
      have hdv3 := evDelta_le rEv
      have hkey : evDelta rEv = 1 → s3.refinementCount = 0 := by
        intro h1
        cases hrv : rEv with
        | none =>
            rw [hrv] at h1
            simp [evDelta] at h1
        | some e2 =>
            rw [hrv] at h1
            have hrf : e2.refined = true := by
              cases hb : e2.refined
              · simp [evDelta, hb] at h1
              · rfl
            have h3 : (critGate approved plan.maxTime plan.maxTurns
                workerPrompt plan.require_code_review env.review env.genFast
                env.now ⟨s3.result, s3.currentLevel, s3.escs,
                  s3.refinementCount, s3.turns, s3.genCalls,
                  s3.tIdx + 1⟩).2 = some e2 := by
              rw [hs3, hrv]
            have hev3 := critGate_event approved plan.maxTime plan.maxTurns
              workerPrompt plan.require_code_review env.review env.genFast
              env.now ⟨s3.result, s3.currentLevel, s3.escs,
                s3.refinementCount, s3.turns, s3.genCalls, s3.tIdx + 1⟩ e2 h3
            exact (hev3.1 hrf).2.1
      refine ⟨?_, by omega, ?_, ?_⟩
      · by_cases h1 : evDelta rEv = 1
        · have h0 := hkey h1
          omega
        · omega
      · intro e he
        rcases he with he | he
        · have h2 : (critGate approved plan.maxTime plan.maxTurns workerPrompt
              plan.require_verification env.sanity
              (if useWeb then env.genWeb else env.genFast) env.now st2).2
              = some e := by rw [hs2]; exact he
          have hev := critGate_event approved plan.maxTime plan.maxTurns
            workerPrompt plan.require_verification env.sanity
            (if useWeb then env.genWeb else env.genFast) env.now st2 e h2
          exact ⟨fun hrf => (hev.1 hrf).1, hev.2⟩
        · have h3 : (critGate approved plan.maxTime plan.maxTurns workerPrompt
              plan.require_code_review env.review env.genFast env.now
              ⟨s3.result, s3.currentLevel, s3.escs, s3.refinementCount,
                s3.turns, s3.genCalls, s3.tIdx + 1⟩).2 = some e := by
            rw [hs3]; exact he
          have hev3 := critGate_event approved plan.maxTime plan.maxTurns
            workerPrompt plan.require_code_review env.review env.genFast
            env.now ⟨s3.result, s3.currentLevel, s3.escs, s3.refinementCount,
              s3.turns, s3.genCalls, s3.tIdx + 1⟩ e h3
          exact ⟨fun hrf => (hev3.1 hrf).1, hev3.2⟩
      · intro e e2 hve hde hre
        cases hb : e2.refined
        · rfl
        · exfalso
          have h3 : (critGate approved plan.maxTime plan.maxTurns workerPrompt
              plan.require_code_review env.review env.genFast env.now
              ⟨s3.result, s3.currentLevel, s3.escs, s3.refinementCount,
                s3.turns, s3.genCalls, s3.tIdx + 1⟩).2 = some e2 := by
            rw [hs3]; exact hre
          have hev3 := critGate_event approved plan.maxTime plan.maxTurns
            workerPrompt plan.require_code_review env.review env.genFast
            env.now ⟨s3.result, s3.currentLevel, s3.escs, s3.refinementCount,
              s3.turns, s3.genCalls, s3.tIdx + 1⟩ e2 h3
          obtain ⟨_, hz3, hcontr⟩ := hev3.1 hb
          have hz3a : s3.refinementCount = 0 := hz3
          have hdv : evDelta vEv = 0 := by omega
          have hrf2 : e.refined = false := by
            rw [hve] at hdv
            cases hbe : e.refined
            · rfl
            · simp [evDelta, hbe] at hdv
          have h2 : (critGate approved plan.maxTime plan.maxTurns workerPrompt
              plan.require_verification env.sanity
              (if useWeb then env.genWeb else env.genFast) env.now st2).2
              = some e := by rw [hs2]; exact hve
          have hf := critGate_first approved plan.maxTime plan.maxTurns
            workerPrompt plan.require_verification env.sanity
            (if useWeb then env.genWeb else env.genFast) env.now st2 e h2
            hde hrf2 hcnt
          rw [hs2] at hf
          dsimp only at hf
          rcases hf with ⟨hlev, hap, hti, htu⟩ | ⟨hgf, hti, htu⟩
          · exact hcontr hlev hap
          · have hm := hmono st2.tIdx (st2.tIdx + 1) (by omega)
            have hgf2 := checkGovernors_mono_false plan.maxTime plan.maxTurns
              (env.now st2.tIdx) (env.now (st2.tIdx + 1)) (st2.turns + 1)
              hgf hm
            rw [hti, htu] at hg2t
            rw [hgf2] at hg2t
            exact Bool.noConfusion hg2t

/-- C8: in one direct-path execution at most one refinement pass occurs,
and the generation-call count is exactly one (the initial pass) plus the
refinement count; every critique event refines only on a material
difference, and a materially differing critique that did not refine is
applied verbatim as the new draft; and — given that successive
elapsed-time readings never decrease, as consecutive `time.time()` calls
guarantee — a materially differing verification critique forecloses any
code-review refinement, so only the first differing critique across the
call can trigger the single refinement. The verification and code-review
sub-steps share this logic verbatim: both are instances of the
`critGate`/`critiqueStage` template. -/
theorem refinement_budget_spec (env : DirectEnv) (plan : DirectPlan)
    (message memPrefix : String)
    (hmono : ∀ i j : Nat, i ≤ j → env.now i ≤ env.now j) :
    (directExec env plan message memPrefix).refinementCount ≤ 1 ∧
    (directExec env plan message memPrefix).genCalls
      = 1 + (directExec env plan message memPrefix).refinementCount ∧
    (∀ e, ((directExec env plan message memPrefix).verifyEv = some e ∨
           (directExec env plan message memPrefix).reviewEv = some e) →
       (e.refined = true → e.differs = true) ∧
       (e.differs = true → e.refined = false →
          e.resultAfter = e.critOut)) ∧
    (∀ e e2, (directExec env plan message memPrefix).verifyEv = some e →
       e.differs = true →
       (directExec env plan message memPrefix).reviewEv = some e2 →
       e2.refined = false) := by
  simp only [directExec]
  by_cases hc0 : env.cancelled 0 = true
  · rw [if_pos hc0]
    refine ⟨?_, ?_, ?_, ?_⟩
    · dsimp only
      omega
    · dsimp only
    · intro e he
      dsimp only at he
      rcases he with he | he
      · exact Option.noConfusion he
      · exact Option.noConfusion he
    · intro e e2 hve hde hre
      dsimp only at hre
      exact Option.noConfusion hre
  · rw [if_neg hc0]
    by_cases hg1 : (!checkGovernors plan.maxTime plan.maxTurns
        (env.now 0) 1) = true
    · rw [if_pos hg1]
      refine ⟨?_, ?_, ?_, ?_⟩
      · dsimp only
        omega
      · dsimp only
      · intro e he
        dsimp only at he
        rcases he with he | he
        · exact Option.noConfusion he
        · exact Option.noConfusion he
      · intro e e2 hve hde hre
        dsimp only at hre
        exact Option.noConfusion hre
    · rw [if_neg hg1]
      exact directTail_spec env plan _ _ _ _ hmono rfl rfl

/-- Direct-path environment of the C8 witness: the sanity check always
disagrees with the draft, so the verification sub-step refines once. -/
def c8env : DirectEnv :=
  { genFast := fun _ => "G"
    genWeb := fun _ => "W"
    sanity := fun d => d ++ "!"
    review := fun d => d
    now := fun _ => 0
    cancelled := fun _ => false }

/-- A level-2 plan requesting both critique sub-steps, no governors. -/
def c8plan : DirectPlan := ⟨2, false, true, true, none, none⟩

/-- C8 witness: the theorem applied at a concrete environment. -/
theorem refinement_budget_spec_witness :
    (directExec c8env c8plan "m" "").refinementCount ≤ 1 ∧
    (directExec c8env c8plan "m" "").genCalls
      = 1 + (directExec c8env c8plan "m" "").refinementCount :=
  ⟨(refinement_budget_spec c8env c8plan "m" ""
      (fun _ _ _ => le_refl 0)).1,
   (refinement_budget_spec c8env c8plan "m" ""
      (fun _ _ _ => le_refl 0)).2.1⟩
